import Mathlib

/-!
Shallow embedding of the accounting and distribution engine of the
red-packet bot (source files: database.py, bot.py, monitor.py, admin.py).

Conventions of the embedding:
* A database row is a structure; the `users` table is modelled as a map
  `Nat → Option Int` from `tg_id` to `balance` (the only user column the
  money-moving code reads or writes).  `username`, `wallet_address` and
  display columns are dropped: no claim mentions them.
* All amounts are `Int` minor units, exactly as the BigInteger columns.
* `random.randint(a, b)` is modelled as `a + seed % (b - a + 1)` for a
  caller-supplied `seed : Nat`; every value of the real range is realized
  by some seed, so universally quantifying over `seed` covers every draw.
* Python float formulas `int(x * 0.95)`, `int(x * 1.5)` and
  `int((r / c) * 2)` are modelled with exact integer arithmetic
  `x * 95 / 100`, `3 * x / 2`, `2 * r / c`.  For `1.5` this is exact;
  for the others double rounding can differ by one unit on boundary
  inputs, and no theorem below depends on the exact value of those
  expressions, only on their order of magnitude and sign.
* A handler body that runs inside one `session.begin()` block commits on
  normal exit (also on an early `return`) and rolls back on an exception;
  each operation below returns the committed state, and a branch that
  raises in the source returns the unchanged input state.
* Timestamps are `Nat` ticks; `datetime.now()` is a caller-supplied `now`.
-/

/-- One row of the `transactions` ledger table (`created_at` dropped). -/
structure Transaction where
  user_id : Nat
  amount : Int
  type : String
  note : String
deriving DecidableEq, Repr

/-- One row of the `deposits` table. -/
structure Deposit where
  id : Nat
  user_id : Nat
  amount : Int
  random_amount : Int
  status : String
  tx_hash : Option String
  created_at : Nat
deriving DecidableEq, Repr

/-- One row of the `withdrawals` table. -/
structure Withdrawal where
  id : Nat
  user_id : Nat
  amount : Int
  wallet_address : String
  status : String
deriving DecidableEq, Repr

/-- One row of the `red_packets` table (`sender_name` dropped,
`claimed_users` held as the decoded JSON list). -/
structure RedPacket where
  id : String
  sender_id : Nat
  total_amount : Int
  total_count : Nat
  remaining_amount : Int
  remaining_count : Nat
  status : String
  claimed_users : List Nat
  mine_number : Int
  created_at : Nat
deriving DecidableEq, Repr

/-- The whole durable store.  `users` maps `tg_id` to the balance column;
`nextDepositId` and `nextWithdrawalId` model the autoincrement columns. -/
structure DBState where
  users : Nat → Option Int
  transactions : List Transaction
  deposits : List Deposit
  withdrawals : List Withdrawal
  packets : List RedPacket
  nextDepositId : Nat
  nextWithdrawalId : Nat

def initState : DBState :=
  { users := fun _ => none, transactions := [], deposits := [],
    withdrawals := [], packets := [], nextDepositId := 1, nextWithdrawalId := 1 }

/-- Read-modify-write of one balance row: create the row with balance 0 when
absent, then add `delta`.  Every balance write of the source is of this
shape (a `with_for_update` row lock plus `balance += delta`, or an ORM
object creation). -/
def bumpBal (users : Nat → Option Int) (uid : Nat) (delta : Int) :
    Nat → Option Int :=
  fun v => if v = uid then some ((users uid).getD 0 + delta) else users v

/-- database.py `add_balance`: lock the row, create the user with balance 0
if absent, refuse a debit that would go negative (the early return still
commits the possibly created user row), otherwise apply the delta and
append the matching ledger row in the same unit of work. -/
def add_balance (s : DBState) (tg_id : Nat) (amount : Int)
    (tx_type : String) (note : String) : Bool × DBState :=
  let bal := (s.users tg_id).getD 0
  if amount < 0 ∧ bal + amount < 0 then
    (false, { s with users := bumpBal s.users tg_id 0 })
  else
    (true, { s with users := bumpBal s.users tg_id amount,
                    transactions := s.transactions ++ [⟨tg_id, amount, tx_type, note⟩] })

/-- database.py `create_withdrawal_request`: lock the user, refuse when the
balance is short, otherwise debit at once (freeze), append the
`withdraw_freeze` ledger row and the pending request in one unit. -/
def create_withdrawal_request (s : DBState) (user_id : Nat) (amount : Int)
    (wallet_address : String) : Option Nat × DBState :=
  match s.users user_id with
  | none => (none, s)
  | some bal =>
    if bal < amount then (none, s)
    else
      (some s.nextWithdrawalId,
       { s with users := bumpBal s.users user_id (-amount),
                transactions := s.transactions ++
                  [⟨user_id, -amount, "withdraw_freeze", "提现冻结"⟩],
                withdrawals := s.withdrawals ++
                  [⟨s.nextWithdrawalId, user_id, amount, wallet_address, "pending"⟩],
                nextWithdrawalId := s.nextWithdrawalId + 1 })

/-- database.py `create_deposit_order`: append a pending order. -/
def create_deposit_order (s : DBState) (user_id : Nat) (amount : Int)
    (random_amount : Int) (now : Nat) : DBState :=
  let order : Deposit :=
    ⟨s.nextDepositId, user_id, amount, random_amount, "pending", none, now⟩
  { s with deposits := s.deposits ++ [order],
           nextDepositId := s.nextDepositId + 1 }

/-- bot.py `process_deposit_amount` handler: reject a non-positive whole
USDT amount, then create the order for `usdt_val * 1000000` plus the
random disambiguation offset `random.randint(100, 5000)`. -/
def process_deposit_amount (s : DBState) (uid : Nat) (usdtVal : Int)
    (offSeed : Nat) (now : Nat) : DBState :=
  if usdtVal ≤ 0 then s
  else
    let amount_db := usdtVal * 1000000
    let final_amount_db := amount_db + (100 + (offSeed : Int) % 4901)
    create_deposit_order s uid amount_db final_amount_db now

/-- bot.py `cmd_start`: a first `/start` creates the user with the
`parse_credits(0.5) = 500000` signup bonus and the matching
`system_bonus` ledger row; an existing user only gets a username touch. -/
def cmd_start (s : DBState) (uid : Nat) : DBState :=
  match s.users uid with
  | some _ => s
  | none =>
    { s with users := bumpBal s.users uid 500000,
             transactions := s.transactions ++
               [⟨uid, 500000, "system_bonus", "新人体验金"⟩] }

/-- bot.py lines 402-406, the split draw of `grab_packet`:
last slot takes the whole remainder; otherwise
`grab_db = random.randint(1, int(avg * 2))` with
`avg = remaining_amount / remaining_count`, clamped to `remaining - 1`
when the draw reaches the remainder.  `none` is the `randint(1, 0)`
`ValueError` (when `int(avg * 2) < 1`), which aborts the handler and
rolls the whole claim back. -/
def maxDraw (p : RedPacket) : Int :=
  2 * p.remaining_amount / (p.remaining_count : Int)

def grabAmount (p : RedPacket) (seed : Nat) : Option Int :=
  if p.remaining_count = 1 then some p.remaining_amount
  else if maxDraw p < 1 then none
  else if p.remaining_amount ≤ 1 + (seed : Int) % maxDraw p
       then some (p.remaining_amount - 1)
       else some (1 + (seed : Int) % maxDraw p)

/-- bot.py line 420: the derived digit of a claimed amount,
`int((grab_db // 100) % 10)`. -/
def mineDigit (g : Int) : Int := g / 100 % 10

/-- bot.py line 423: `int(packet.total_amount * boom_rate)` with
`boom_rate = 1.5` (exact in binary floating point). -/
def penaltyOf (total : Int) : Int := 3 * total / 2

def findPacket (s : DBState) (pid : String) : Option RedPacket :=
  s.packets.find? (fun p => decide (p.id = pid))

/-- The row update `grab_packet` performs on the locked packet. -/
def grabUpdate (p : RedPacket) (uid : Nat) (g : Int) : RedPacket :=
  { p with remaining_amount := p.remaining_amount - g,
           remaining_count := p.remaining_count - 1,
           claimed_users := p.claimed_users ++ [uid],
           status := if p.remaining_count - 1 = 0 then "finished" else p.status }

def setPacket (ps : List RedPacket) (pid : String) (p' : RedPacket) :
    List RedPacket :=
  ps.map (fun x => if x.id = pid then p' else x)

/-- The committed effect of a successful (non-mine-hit) claim: the packet
row update, the claimer row created when absent and credited `g`, and the
`grab` ledger row — one unit of work. -/
def grabApply (s : DBState) (p : RedPacket) (uid : Nat) (g : Int) : DBState :=
  { s with packets := setPacket s.packets p.id (grabUpdate p uid g),
           users := bumpBal (bumpBal s.users uid 0) uid g,
           transactions := s.transactions ++ [⟨uid, g, "grab", "P:" ++ p.id⟩] }

/-- The additional effect of a mine hit, bot.py lines 422-431: debit the
claimant by the penalty, credit the sender identically, two ledger rows,
still in the same unit of work. -/
def hazardApply (s1 : DBState) (p : RedPacket) (uid : Nat) : DBState :=
  { s1 with
    users := bumpBal (bumpBal s1.users uid (-(penaltyOf p.total_amount)))
               p.sender_id (penaltyOf p.total_amount),
    transactions := s1.transactions ++
      [⟨uid, -(penaltyOf p.total_amount), "boom_penalty", "中雷:" ++ p.id⟩,
       ⟨p.sender_id, penaltyOf p.total_amount, "boom_income", "中雷赔付:" ++ p.id⟩] }

/-- bot.py `grab_packet`: under the packet row lock, refuse when the packet
is missing, not active or empty; refuse a second claim by the same user;
create the claimer row (balance 0) when absent — that creation commits
even when the risk gate then denies; deny a mine packet to a claimer
below 5 USDT; draw the split amount (a `ValueError` of the draw rolls
everything back); debit the packet, append the claimer and credit the
grab with its ledger row; on a mine hit debit the claimant by
`penaltyOf total` and credit the sender identically, two more ledger
rows, all in the same unit of work (a missing sender row raises and
rolls the whole claim back). -/
def grab_packet (s : DBState) (pid : String) (uid : Nat) (seed : Nat) : DBState :=
  match findPacket s pid with
  | none => s
  | some p =>
    if p.status ≠ "active" ∨ p.remaining_count ≤ 0 then s
    else if uid ∈ p.claimed_users then s
    else if 0 ≤ p.mine_number ∧ (s.users uid).getD 0 < 5000000 then
      { s with users := bumpBal s.users uid 0 }
    else
      match grabAmount p seed with
      | none => s
      | some g =>
        if 0 ≤ p.mine_number ∧ mineDigit g = p.mine_number then
          match (grabApply s p uid g).users p.sender_id with
          | none => s
          | some _ => hazardApply (grabApply s p uid g) p uid
        else grabApply s p uid g

/-- bot.py fee line 310: `int(amount_db * (1 - 0.05))`. -/
def packetTotal (amount : Int) : Int := amount * 95 / 100

/-- bot.py `process_packet_mine` handler together with the guards of the
two preceding FSM steps (`amount_db ≥ 100000`, `count ≥ 2`,
`-1 ≤ mine ≤ 9`): debit the sender for the full nominal amount through
`add_balance`, then insert the packet with the after-fee total.  The
packet insert runs in a later session: a duplicate id fails only the
insert, the committed debit stays. -/
def process_packet_mine (s : DBState) (uid : Nat) (pid : String)
    (amount : Int) (count : Nat) (mine : Int) (now : Nat) : DBState :=
  if amount < 100000 ∨ count < 2 ∨ 9 < mine ∨ mine < -1 then s
  else
    match add_balance s uid (-amount) "send_packet" ("雷" ++ toString mine) with
    | (false, s') => s'
    | (true, s') =>
      if s'.packets.any (fun p => decide (p.id = pid)) then s'
      else
        let packet : RedPacket :=
          ⟨pid, uid, packetTotal amount, count, packetTotal amount, count,
           "active", [], mine, now⟩
        { s' with packets := s'.packets ++ [packet] }

/-- monitor.py `process_deposit`: one atomic unit per transfer — drop a
`tx_hash` already attached to any order, match the newest pending order
with `random_amount = amount` (`order_by(Deposit.id.desc())`), mark it
completed with the hash attached, and credit the owner row the
transferred amount with a `deposit_auto` ledger row (skipped when the
owner row does not exist). -/
def process_deposit (s : DBState) (tx_id : String) (amount : Int) : DBState :=
  if s.deposits.any (fun d => decide (d.tx_hash = some tx_id)) then s
  else
    match s.deposits.reverse.find?
        (fun d => decide (d.random_amount = amount ∧ d.status = "pending")) with
    | none => s
    | some d =>
      let marked := s.deposits.map
        (fun x => if x.id = d.id then { x with status := "completed",
                                               tx_hash := some tx_id } else x)
      match s.users d.user_id with
      | none => { s with deposits := marked }
      | some _ =>
        { s with deposits := marked,
                 users := bumpBal s.users d.user_id amount,
                 transactions := s.transactions ++
                   [⟨d.user_id, amount, "deposit_auto", "充值:" ++ toString d.id⟩] }

/-- The duplicate check and amount match of bot.py `process_chain_txs`
(no `order_by`: first row in table order). -/
def chainTxMatch (s : DBState) (tx_hash : String) (value : Int) : Option Deposit :=
  if s.deposits.any (fun d => decide (d.tx_hash = some tx_hash)) then none
  else s.deposits.find?
    (fun d => decide (d.status = "pending" ∧ d.random_amount = value))

/-- The `add_balance` call of bot.py `process_chain_txs` — the owner is
credited the order's nominal `order.amount` in a fresh session that
commits on its own. -/
def chainTxCredit (s : DBState) (d : Deposit) (tx_hash : String) : DBState :=
  (add_balance s d.user_id d.amount "deposit" ("充值:" ++ tx_hash.take 6)).2

/-- The order update of bot.py `process_chain_txs`, committed by the outer
`session.commit()` after the credit. -/
def chainTxMark (s : DBState) (d : Deposit) (tx_hash : String) : DBState :=
  let marked := s.deposits.map
    (fun x => if x.id = d.id then { x with status := "success",
                                           tx_hash := some tx_hash } else x)
  { s with deposits := marked }

/-- bot.py `process_chain_txs`, one transfer, run to completion: filter on
the collection address, drop duplicates, match, then credit (first
commit) and mark the order (second commit). -/
def process_chain_tx (s : DBState) (tx_hash to_addr watch_addr : String)
    (value : Int) : DBState :=
  if to_addr ≠ watch_addr then s
  else
    match chainTxMatch s tx_hash value with
    | none => s
    | some d => chainTxMark (chainTxCredit s d tx_hash) d tx_hash

/-- bot.py `process_chain_txs`, one transfer, crashed between the two
commits: the `add_balance` session has committed the credit, the outer
`session.commit()` with the order update never ran. -/
def process_chain_tx_crash (s : DBState) (tx_hash to_addr watch_addr : String)
    (value : Int) : DBState :=
  if to_addr ≠ watch_addr then s
  else
    match chainTxMatch s tx_hash value with
    | none => s
    | some d => chainTxCredit s d tx_hash

/-- admin.py `handle_deposit`: on a pending order, `approve` credits the
owner `order.random_amount` through `add_balance` (an own committed
session) and marks the order completed; `reject` only flips the status. -/
def handle_deposit (s : DBState) (order_id : Nat) (action : String) : DBState :=
  match s.deposits.find? (fun d => decide (d.id = order_id)) with
  | none => s
  | some d =>
    if d.status ≠ "pending" then s
    else if action = "approve" then
      match add_balance s d.user_id d.random_amount "deposit_manual"
          ("Admin批准:Order:" ++ toString d.id) with
      | (false, s') => s'
      | (true, s') =>
        let marked := s'.deposits.map
          (fun x => if x.id = d.id then { x with status := "completed" } else x)
        { s' with deposits := marked }
    else if action = "reject" then
      let marked := s.deposits.map
        (fun x => if x.id = d.id then { x with status := "rejected" } else x)
      { s with deposits := marked }
    else s

/-- admin.py `handle_withdrawal`: on a pending request, `approve` debits
the owner AGAIN by the request amount through `add_balance` (a failed
debit raises and leaves the request pending, the `add_balance` session
having already committed its user-creation side effect), then marks the
request approved; `reject` only flips the status. -/
def handle_withdrawal (s : DBState) (request_id : Nat) (action : String) : DBState :=
  match s.withdrawals.find? (fun w => decide (w.id = request_id)) with
  | none => s
  | some w =>
    if w.status ≠ "pending" then s
    else if action = "approve" then
      match add_balance s w.user_id (-w.amount) "withdraw_approved"
          ("提现ID:" ++ toString w.id) with
      | (false, s') => s'
      | (true, s') =>
        let marked := s'.withdrawals.map
          (fun x => if x.id = w.id then { x with status := "approved" } else x)
        { s' with withdrawals := marked }
    else if action = "reject" then
      let marked := s.withdrawals.map
        (fun x => if x.id = w.id then { x with status := "rejected" } else x)
      { s with withdrawals := marked }
    else s

/-- The body of monitor.py `auto_refund_redpackets` for one expired packet:
credit the sender the unclaimed remainder (when positive and the sender
row exists) with a `refund` ledger row, and flip the status to refunded
either way.  The sweep computes its expired set once; re-finding the
packet here is equivalent because no step of the sweep touches another
packet, and ids are unique.  The `p.status` guard restates that the
packet came from the `status == 'active'` query. -/
def refundMark (s : DBState) (p : RedPacket) : DBState :=
  { s with
      packets := s.packets.map (fun x =>
        if x.id = p.id then { x with status := "refunded" } else x) }

def refundStep (s : DBState) (pid : String) : DBState :=
  match findPacket s pid with
  | none => s
  | some p =>
    if p.status ≠ "active" then s
    else if 0 < p.remaining_amount then
      match s.users p.sender_id with
      | none => refundMark s p
      | some _ =>
        refundMark
          { s with users := bumpBal s.users p.sender_id p.remaining_amount,
                   transactions := s.transactions ++
                     [⟨p.sender_id, p.remaining_amount, "refund", "红包过期:" ++ p.id⟩] }
          p
    else refundMark s p

/-- monitor.py `auto_refund_redpackets`: one sweep over every packet still
`active` and older than the cutoff. -/
def auto_refund_redpackets (s : DBState) (limit : Nat) : DBState :=
  ((s.packets.filter
      (fun p => decide (p.status = "active" ∧ p.created_at < limit))).map
    RedPacket.id).foldl refundStep s

/-- monitor.py `auto_reject_expired_orders`: every pending deposit older
than the cutoff becomes expired; no balance effect. -/
def auto_reject_expired_orders (s : DBState) (limit : Nat) : DBState :=
  let marked := s.deposits.map
    (fun d => if d.status = "pending" ∧ d.created_at < limit
              then { d with status := "expired" } else d)
  { s with deposits := marked }

/-- Every money-relevant entry point of the system, with the randomness
and clock of each handler as explicit data. -/
inductive Op where
  | start (uid : Nat)
  | depositOrder (uid : Nat) (usdtVal : Int) (offSeed : Nat) (now : Nat)
  | adminDeposit (order_id : Nat) (action : String)
  | monitorDeposit (tx_id : String) (amount : Int)
  | chainTx (tx_hash to_addr watch_addr : String) (value : Int)
  | chainTxCrash (tx_hash to_addr watch_addr : String) (value : Int)
  | withdrawReq (uid : Nat) (amount : Int) (addr : String)
  | adminWithdraw (request_id : Nat) (action : String)
  | sendPacket (uid : Nat) (pid : String) (amount : Int) (count : Nat)
      (mine : Int) (now : Nat)
  | grab (pid : String) (uid : Nat) (seed : Nat)
  | refundSweep (limit : Nat)
  | expireOrders (limit : Nat)

def applyOp (s : DBState) : Op → DBState
  | Op.start uid => cmd_start s uid
  | Op.depositOrder uid v off now => process_deposit_amount s uid v off now
  | Op.adminDeposit oid a => handle_deposit s oid a
  | Op.monitorDeposit tx amt => process_deposit s tx amt
  | Op.chainTx tx toA wA v => process_chain_tx s tx toA wA v
  | Op.chainTxCrash tx toA wA v => process_chain_tx_crash s tx toA wA v
  | Op.withdrawReq uid amt addr => (create_withdrawal_request s uid amt addr).2
  | Op.adminWithdraw rid a => handle_withdrawal s rid a
  | Op.sendPacket uid pid amt cnt mine now =>
      process_packet_mine s uid pid amt cnt mine now
  | Op.grab pid uid seed => grab_packet s pid uid seed
  | Op.refundSweep limit => auto_refund_redpackets s limit
  | Op.expireOrders limit => auto_reject_expired_orders s limit

def runOps (ops : List Op) : DBState := ops.foldl applyOp initState

/-! ## Ledger sums and the reachable-state invariant -/

/-- Sum of all ledger amounts recorded for one account. -/
def txSum (txs : List Transaction) (uid : Nat) : Int :=
  (txs.map (fun t => if t.user_id = uid then t.amount else 0)).sum

/-- Sum of the claimed amounts of one packet, read off the ledger the way
the source records them (`type = "grab"`, note `P:<packet id>`). -/
def claimedSum (txs : List Transaction) (pid : String) : Int :=
  (txs.map (fun t => if t.type = "grab" ∧ t.note = "P:" ++ pid
                     then t.amount else 0)).sum

/-- Sum of the expiry-refund amounts of one packet, read off the ledger
(`type = "refund"`, note `红包过期:<packet id>`). -/
def refundSum (txs : List Transaction) (pid : String) : Int :=
  (txs.map (fun t => if t.type = "refund" ∧ t.note = "红包过期:" ++ pid
                     then t.amount else 0)).sum

theorem string_append_cancel_left (a b c : String) (h : a ++ b = a ++ c) :
    b = c := by
  apply String.ext
  have h2 : (a ++ b).data = (a ++ c).data := congrArg String.data h
  rw [String.data_append, String.data_append] at h2
  exact List.append_cancel_left h2

theorem txSum_append (txs : List Transaction) (t : Transaction) (uid : Nat) :
    txSum (txs ++ [t]) uid =
      txSum txs uid + (if t.user_id = uid then t.amount else 0) := by
  simp [txSum]

theorem claimedSum_append (txs : List Transaction) (t : Transaction) (pid : String) :
    claimedSum (txs ++ [t]) pid =
      claimedSum txs pid +
        (if t.type = "grab" ∧ t.note = "P:" ++ pid then t.amount else 0) := by
  simp [claimedSum]

theorem refundSum_append (txs : List Transaction) (t : Transaction) (pid : String) :
    refundSum (txs ++ [t]) pid =
      refundSum txs pid +
        (if t.type = "refund" ∧ t.note = "红包过期:" ++ pid then t.amount else 0) := by
  simp [refundSum]

theorem claimedSum_append_ne (txs : List Transaction) (t : Transaction)
    (pid : String) (h : t.type ≠ "grab") :
    claimedSum (txs ++ [t]) pid = claimedSum txs pid := by
  rw [claimedSum_append, if_neg (fun hc => h hc.1), add_zero]

theorem refundSum_append_ne (txs : List Transaction) (t : Transaction)
    (pid : String) (h : t.type ≠ "refund") :
    refundSum (txs ++ [t]) pid = refundSum txs pid := by
  rw [refundSum_append, if_neg (fun hc => h hc.1), add_zero]

theorem claimedSum_append_grab (txs : List Transaction) (uid : Nat) (g : Int)
    (pid x : String) :
    claimedSum (txs ++ [⟨uid, g, "grab", "P:" ++ pid⟩]) x =
      claimedSum txs x + (if x = pid then g else 0) := by
  rw [claimedSum_append]
  by_cases h : x = pid
  · subst h; simp
  · rw [if_neg h, if_neg]
    intro hc
    exact h (string_append_cancel_left "P:" pid x hc.2).symm

theorem refundSum_append_refund (txs : List Transaction) (uid : Nat) (g : Int)
    (pid x : String) :
    refundSum (txs ++ [⟨uid, g, "refund", "红包过期:" ++ pid⟩]) x =
      refundSum txs x + (if x = pid then g else 0) := by
  rw [refundSum_append]
  by_cases h : x = pid
  · subst h; simp
  · rw [if_neg h, if_neg]
    intro hc
    exact h (string_append_cancel_left "红包过期:" pid x hc.2).symm

theorem bumpBal_apply (users : Nat → Option Int) (uid : Nat) (delta : Int)
    (v : Nat) :
    bumpBal users uid delta v =
      if v = uid then some ((users uid).getD 0 + delta) else users v := rfl

/-- The invariant that every reachable state of the system satisfies. -/
structure SysInv (s : DBState) : Prop where
  cons : ∀ uid, (s.users uid).getD 0 = txSum s.transactions uid
  pidsNodup : (s.packets.map RedPacket.id).Nodup
  claimedNodup : ∀ p ∈ s.packets, p.claimed_users.Nodup
  poolCons : ∀ p ∈ s.packets,
    claimedSum s.transactions p.id + p.remaining_amount = p.total_amount
  refundCons : ∀ p ∈ s.packets,
    refundSum s.transactions p.id =
      (if p.status = "refunded" then p.remaining_amount else 0)
  freshPools : ∀ pid : String, (∀ p ∈ s.packets, p.id ≠ pid) →
    claimedSum s.transactions pid = 0 ∧ refundSum s.transactions pid = 0
  senderExists : ∀ p ∈ s.packets, (s.users p.sender_id).isSome
  remNonneg : ∀ p ∈ s.packets, 0 ≤ p.remaining_amount
  depositPos : ∀ d ∈ s.deposits, 0 < d.amount ∧ 0 < d.random_amount

theorem inv_init : SysInv initState := by
  constructor <;> simp [initState, txSum, claimedSum, refundSum]

/-! ## Preservation of the invariant, one building block at a time -/

theorem cons_credit {users : Nat → Option Int} {txs : List Transaction}
    (h : ∀ v, (users v).getD 0 = txSum txs v) (uid : Nat) (δ : Int)
    (ty nt : String) :
    ∀ v, ((bumpBal users uid δ) v).getD 0 =
      txSum (txs ++ [⟨uid, δ, ty, nt⟩]) v := by
  intro v
  rw [txSum_append, bumpBal_apply]
  by_cases hv : v = uid
  · subst hv; simp [h v]
  · rw [if_neg hv, if_neg (fun h2 : uid = v => hv h2.symm), add_zero]
    exact h v

theorem bumpBal_isSome {users : Nat → Option Int} {x : Nat}
    (h : (users x).isSome) (uid : Nat) (δ : Int) :
    ((bumpBal users uid δ) x).isSome := by
  by_cases hv : x = uid <;> simp [bumpBal, hv, h]

/-- One balance bump with its matching ledger row (of a type other than
`grab` and `refund`) preserves the invariant. -/
theorem sysInv_users_tx (s : DBState) (hInv : SysInv s) (uid : Nat) (δ : Int)
    (ty nt : String) (hg : ty ≠ "grab") (hr : ty ≠ "refund") :
    SysInv { s with users := bumpBal s.users uid δ,
                    transactions := s.transactions ++ [⟨uid, δ, ty, nt⟩] } := by
  refine ⟨cons_credit hInv.cons uid δ ty nt, hInv.pidsNodup, hInv.claimedNodup,
          ?_, ?_, ?_, ?_, hInv.remNonneg, hInv.depositPos⟩
  · intro p hp; rw [claimedSum_append_ne _ _ _ hg]; exact hInv.poolCons p hp
  · intro p hp; rw [refundSum_append_ne _ _ _ hr]; exact hInv.refundCons p hp
  · intro pid hpid
    rw [claimedSum_append_ne _ _ _ hg, refundSum_append_ne _ _ _ hr]
    exact hInv.freshPools pid hpid
  · intro p hp; exact bumpBal_isSome (hInv.senderExists p hp) uid δ

/-- Creating a user row with balance 0 and no ledger row preserves the
invariant. -/
theorem sysInv_bump0 (s : DBState) (hInv : SysInv s) (uid : Nat) :
    SysInv { s with users := bumpBal s.users uid 0 } := by
  refine ⟨?_, hInv.pidsNodup, hInv.claimedNodup, hInv.poolCons, hInv.refundCons,
          hInv.freshPools, ?_, hInv.remNonneg, hInv.depositPos⟩
  · intro v
    show ((bumpBal s.users uid 0) v).getD 0 = txSum s.transactions v
    rw [bumpBal_apply]
    by_cases hv : v = uid
    · subst hv; simp [hInv.cons v]
    · rw [if_neg hv]; exact hInv.cons v
  · intro p hp; exact bumpBal_isSome (hInv.senderExists p hp) uid 0

theorem sysInv_withdrawals (s : DBState) (hInv : SysInv s)
    (w : List Withdrawal) (n : Nat) :
    SysInv { s with withdrawals := w, nextWithdrawalId := n } :=
  ⟨hInv.cons, hInv.pidsNodup, hInv.claimedNodup, hInv.poolCons, hInv.refundCons,
   hInv.freshPools, hInv.senderExists, hInv.remNonneg, hInv.depositPos⟩

theorem sysInv_deposits (s : DBState) (hInv : SysInv s) (ds : List Deposit)
    (n : Nat) (hpos : ∀ d ∈ ds, 0 < d.amount ∧ 0 < d.random_amount) :
    SysInv { s with deposits := ds, nextDepositId := n } :=
  ⟨hInv.cons, hInv.pidsNodup, hInv.claimedNodup, hInv.poolCons, hInv.refundCons,
   hInv.freshPools, hInv.senderExists, hInv.remNonneg, hpos⟩

theorem depositPos_map {ds : List Deposit} (f : Deposit → Deposit)
    (hf : ∀ d, (f d).amount = d.amount ∧ (f d).random_amount = d.random_amount)
    (h : ∀ d ∈ ds, 0 < d.amount ∧ 0 < d.random_amount) :
    ∀ d ∈ ds.map f, 0 < d.amount ∧ 0 < d.random_amount := by
  intro d hd
  rcases List.mem_map.1 hd with ⟨x, hx, rfl⟩
  rw [(hf x).1, (hf x).2]
  exact h x hx

theorem sysInv_add_balance (s : DBState) (hInv : SysInv s) (uid : Nat)
    (amt : Int) (ty nt : String) (hg : ty ≠ "grab") (hr : ty ≠ "refund") :
    SysInv (add_balance s uid amt ty nt).2 := by
  unfold add_balance
  by_cases h : amt < 0 ∧ (s.users uid).getD 0 + amt < 0
  · simp only [if_pos h]
    exact sysInv_bump0 s hInv uid
  · simp only [if_neg h]
    exact sysInv_users_tx s hInv uid amt ty nt hg hr

theorem add_balance_true (s : DBState) (uid : Nat) (amt : Int)
    (ty nt : String) (h : ¬(amt < 0 ∧ (s.users uid).getD 0 + amt < 0)) :
    add_balance s uid amt ty nt =
      (true, { s with users := bumpBal s.users uid amt,
                      transactions := s.transactions ++ [⟨uid, amt, ty, nt⟩] }) := by
  unfold add_balance
  simp only [if_neg h]

theorem add_balance_false (s : DBState) (uid : Nat) (amt : Int)
    (ty nt : String) (h : amt < 0 ∧ (s.users uid).getD 0 + amt < 0) :
    add_balance s uid amt ty nt =
      (false, { s with users := bumpBal s.users uid 0 }) := by
  unfold add_balance
  simp only [if_pos h]

theorem sysInv_deposit_statuses (s : DBState) (hInv : SysInv s)
    (f : Deposit → Deposit)
    (hf : ∀ d, (f d).amount = d.amount ∧ (f d).random_amount = d.random_amount) :
    SysInv { s with deposits := s.deposits.map f } :=
  sysInv_deposits s hInv _ s.nextDepositId (depositPos_map f hf hInv.depositPos)

theorem sysInv_packet_append (s : DBState) (hInv : SysInv s) (p : RedPacket)
    (hfresh : ∀ q ∈ s.packets, q.id ≠ p.id)
    (hclaim : p.claimed_users = []) (hst : p.status = "active")
    (hrt : p.remaining_amount = p.total_amount) (hr0 : 0 ≤ p.remaining_amount)
    (hs : (s.users p.sender_id).isSome) :
    SysInv { s with packets := s.packets ++ [p] } := by
  have hsum := hInv.freshPools p.id hfresh
  refine ⟨hInv.cons, ?_, ?_, ?_, ?_, ?_, ?_, ?_, hInv.depositPos⟩
  · show ((s.packets ++ [p]).map RedPacket.id).Nodup
    rw [List.map_append, List.nodup_append]
    refine ⟨hInv.pidsNodup, List.nodup_singleton _, ?_⟩
    intro x hx hx2
    rcases List.mem_map.1 hx with ⟨q, hq, rfl⟩
    simp only [List.map_cons, List.map_nil, List.mem_singleton] at hx2
    exact hfresh q hq hx2
  · intro q hq
    rcases List.mem_append.1 hq with h | h
    · exact hInv.claimedNodup q h
    · rcases List.mem_singleton.1 h with rfl
      rw [hclaim]; exact List.nodup_nil
  · intro q hq
    rcases List.mem_append.1 hq with h | h
    · exact hInv.poolCons q h
    · rcases List.mem_singleton.1 h with rfl
      rw [hsum.1, zero_add, hrt]
  · intro q hq
    rcases List.mem_append.1 hq with h | h
    · exact hInv.refundCons q h
    · rcases List.mem_singleton.1 h with rfl
      rw [hsum.2, hst]
      simp
  · intro pid hpid
    exact hInv.freshPools pid
      (fun q hq => hpid q (List.mem_append_left _ hq))
  · intro q hq
    rcases List.mem_append.1 hq with h | h
    · exact hInv.senderExists q h
    · rcases List.mem_singleton.1 h with rfl
      exact hs
  · intro q hq
    rcases List.mem_append.1 hq with h | h
    · exact hInv.remNonneg q h
    · rcases List.mem_singleton.1 h with rfl
      exact hr0

theorem add_balance_users_isSome (s : DBState) (uid : Nat) (amt : Int)
    (ty nt : String) : (((add_balance s uid amt ty nt).2).users uid).isSome := by
  unfold add_balance
  by_cases h : amt < 0 ∧ (s.users uid).getD 0 + amt < 0
  · simp [if_pos h, bumpBal]
  · simp [if_neg h, bumpBal]

/-! ## Per-operation preservation -/

theorem inv_cmd_start (s : DBState) (hInv : SysInv s) (uid : Nat) :
    SysInv (cmd_start s uid) := by
  unfold cmd_start
  split
  · exact hInv
  · exact sysInv_users_tx s hInv uid 500000 "system_bonus" "新人体验金"
      (by decide) (by decide)

theorem inv_process_deposit_amount (s : DBState) (hInv : SysInv s) (uid : Nat)
    (v : Int) (off now : Nat) :
    SysInv (process_deposit_amount s uid v off now) := by
  unfold process_deposit_amount create_deposit_order
  split
  · exact hInv
  · rename_i hv
    refine sysInv_deposits s hInv _ _ ?_
    intro d hd
    rcases List.mem_append.1 hd with h | h
    · exact hInv.depositPos d h
    · rcases List.mem_singleton.1 h with rfl
      have hv' : 0 < v := not_le.mp hv
      have h1 : (0 : Int) < v * 1000000 := by positivity
      refine ⟨h1, ?_⟩
      have h2 : (0 : Int) ≤ (off : Int) % 4901 :=
        Int.emod_nonneg _ (by norm_num)
      show (0 : Int) < v * 1000000 + (100 + (off : Int) % 4901)
      have h3 : (0 : Int) < 100 + (off : Int) % 4901 := by linarith
      linarith

theorem inv_handle_deposit (s : DBState) (hInv : SysInv s) (oid : Nat)
    (a : String) : SysInv (handle_deposit s oid a) := by
  unfold handle_deposit
  split
  · exact hInv
  · rename_i d hd
    split
    · exact hInv
    · split
      · -- approve
        split
        · rename_i s' heq
          have hS := sysInv_add_balance s hInv d.user_id d.random_amount
            "deposit_manual" ("Admin批准:Order:" ++ toString d.id)
            (by decide) (by decide)
          rw [heq] at hS
          exact hS
        · rename_i s' heq
          have hS := sysInv_add_balance s hInv d.user_id d.random_amount
            "deposit_manual" ("Admin批准:Order:" ++ toString d.id)
            (by decide) (by decide)
          rw [heq] at hS
          exact sysInv_deposit_statuses s' hS _
            (fun x => by by_cases hx : x.id = d.id <;> simp [hx])
      · split
        · -- reject
          exact sysInv_deposit_statuses s hInv _
            (fun x => by by_cases hx : x.id = d.id <;> simp [hx])
        · exact hInv

theorem inv_create_withdrawal_request (s : DBState) (hInv : SysInv s)
    (uid : Nat) (amt : Int) (addr : String) :
    SysInv (create_withdrawal_request s uid amt addr).2 := by
  unfold create_withdrawal_request
  split
  · exact hInv
  · split
    · exact hInv
    · exact sysInv_withdrawals _
        (sysInv_users_tx s hInv uid (-amt) "withdraw_freeze" "提现冻结"
          (by decide) (by decide)) _ _

theorem inv_handle_withdrawal (s : DBState) (hInv : SysInv s) (rid : Nat)
    (a : String) : SysInv (handle_withdrawal s rid a) := by
  unfold handle_withdrawal
  split
  · exact hInv
  · rename_i w hw
    split
    · exact hInv
    · split
      · split
        · rename_i s' heq
          have hS := sysInv_add_balance s hInv w.user_id (-w.amount)
            "withdraw_approved" ("提现ID:" ++ toString w.id)
            (by decide) (by decide)
          rw [heq] at hS
          exact hS
        · rename_i s' heq
          have hS := sysInv_add_balance s hInv w.user_id (-w.amount)
            "withdraw_approved" ("提现ID:" ++ toString w.id)
            (by decide) (by decide)
          rw [heq] at hS
          exact sysInv_withdrawals s' hS _ _
      · split
        · exact sysInv_withdrawals s hInv _ _
        · exact hInv

theorem inv_process_deposit (s : DBState) (hInv : SysInv s) (tx : String)
    (amt : Int) : SysInv (process_deposit s tx amt) := by
  unfold process_deposit
  split
  · exact hInv
  · split
    · exact hInv
    · rename_i d hd
      split
      · exact sysInv_deposit_statuses s hInv _
          (fun x => by by_cases hx : x.id = d.id <;> simp [hx])
      · exact sysInv_users_tx { s with deposits := _ }
          (sysInv_deposit_statuses s hInv _
            (fun x => by by_cases hx : x.id = d.id <;> simp [hx]))
          d.user_id amt "deposit_auto" ("充值:" ++ toString d.id)
          (by decide) (by decide)

theorem inv_process_chain_tx (s : DBState) (hInv : SysInv s)
    (tx toA wA : String) (v : Int) :
    SysInv (process_chain_tx s tx toA wA v) := by
  unfold process_chain_tx
  split
  · exact hInv
  · split
    · exact hInv
    · rename_i d hd
      unfold chainTxMark
      exact sysInv_deposit_statuses _
        (sysInv_add_balance s hInv d.user_id d.amount "deposit"
          ("充值:" ++ tx.take 6) (by decide) (by decide)) _
        (fun x => by by_cases hx : x.id = d.id <;> simp [hx])

theorem inv_process_chain_tx_crash (s : DBState) (hInv : SysInv s)
    (tx toA wA : String) (v : Int) :
    SysInv (process_chain_tx_crash s tx toA wA v) := by
  unfold process_chain_tx_crash
  split
  · exact hInv
  · split
    · exact hInv
    · rename_i d hd
      exact sysInv_add_balance s hInv d.user_id d.amount "deposit"
        ("充值:" ++ tx.take 6) (by decide) (by decide)

theorem inv_auto_reject_expired_orders (s : DBState) (hInv : SysInv s)
    (limit : Nat) : SysInv (auto_reject_expired_orders s limit) := by
  unfold auto_reject_expired_orders
  exact sysInv_deposit_statuses s hInv _
    (fun d => by by_cases hx : d.status = "pending" ∧ d.created_at < limit <;> simp [hx])

theorem grabAmount_sub_nonneg {p : RedPacket} {seed : Nat} {g : Int}
    (h : grabAmount p seed = some g) : 0 ≤ p.remaining_amount - g := by
  unfold grabAmount at h
  split at h
  · injection h with h
    omega
  · split at h
    · exact Option.noConfusion h
    · split at h <;> injection h with h <;> omega

theorem refundSum_append_grabtx (txs : List Transaction) (uid : Nat) (g : Int)
    (pid x : String) :
    refundSum (txs ++ [⟨uid, g, "grab", "P:" ++ pid⟩]) x = refundSum txs x := by
  rw [refundSum_append, if_neg, add_zero]
  intro hc
  have hne : ("grab" : String) ≠ "refund" := by decide
  exact hne hc.1

theorem claimedSum_append_refundtx (txs : List Transaction) (uid : Nat)
    (g : Int) (pid x : String) :
    claimedSum (txs ++ [⟨uid, g, "refund", "红包过期:" ++ pid⟩]) x =
      claimedSum txs x := by
  rw [claimedSum_append, if_neg, add_zero]
  intro hc
  have hne : ("refund" : String) ≠ "grab" := by decide
  exact hne hc.1

theorem cons_bump0 {users : Nat → Option Int} {txs : List Transaction}
    (h : ∀ v, (users v).getD 0 = txSum txs v) (uid : Nat) :
    ∀ v, ((bumpBal users uid 0) v).getD 0 = txSum txs v := by
  intro v
  rw [bumpBal_apply]
  by_cases hv : v = uid
  · subst hv; simp [h v]
  · rw [if_neg hv]; exact h v

theorem setPacket_map_id (ps : List RedPacket) (pid : String) (p' : RedPacket)
    (hid : p'.id = pid) :
    (setPacket ps pid p').map RedPacket.id = ps.map RedPacket.id := by
  unfold setPacket
  rw [List.map_map]
  apply List.map_congr_left
  intro x _
  by_cases hx : x.id = pid
  · simp [hx, hid]
  · simp [hx]


/-- The packet-row update, claimer credit and `grab` ledger row of one
successful claim preserve the invariant. -/
theorem inv_grabApply (s : DBState) (hInv : SysInv s) (p : RedPacket)
    (uid : Nat) (g : Int) (hpmem : p ∈ s.packets) (hact : p.status = "active")
    (hclaimed : uid ∉ p.claimed_users) (hrg : 0 ≤ p.remaining_amount - g) :
    SysInv (grabApply s p uid g) := by
  have hidU : (grabUpdate p uid g).id = p.id := rfl
  have hinj := List.inj_on_of_nodup_map hInv.pidsNodup
  refine ⟨?_, ?_, ?_, ?_, ?_, ?_, ?_, ?_, hInv.depositPos⟩
  · exact cons_credit (cons_bump0 hInv.cons uid) uid g "grab" ("P:" ++ p.id)
  · show ((setPacket s.packets p.id (grabUpdate p uid g)).map RedPacket.id).Nodup
    rw [setPacket_map_id _ _ _ hidU]
    exact hInv.pidsNodup
  · intro q hq
    rcases List.mem_map.1 hq with ⟨x, hx, rfl⟩
    by_cases hxid : x.id = p.id
    · rw [if_pos hxid]
      show (p.claimed_users ++ [uid]).Nodup
      rw [List.nodup_append]
      refine ⟨hInv.claimedNodup p hpmem, List.nodup_singleton _, ?_⟩
      intro a ha ha2
      rw [List.mem_singleton] at ha2
      subst ha2
      exact hclaimed ha
    · rw [if_neg hxid]
      exact hInv.claimedNodup x hx
  · intro q hq
    rcases List.mem_map.1 hq with ⟨x, hx, rfl⟩
    by_cases hxid : x.id = p.id
    · rw [if_pos hxid]
      show claimedSum (s.transactions ++ [⟨uid, g, "grab", "P:" ++ p.id⟩]) p.id +
        (p.remaining_amount - g) = p.total_amount
      rw [claimedSum_append_grab, if_pos rfl]
      have hsum := hInv.poolCons p hpmem
      omega
    · rw [if_neg hxid]
      show claimedSum (s.transactions ++ [⟨uid, g, "grab", "P:" ++ p.id⟩]) x.id +
        x.remaining_amount = x.total_amount
      rw [claimedSum_append_grab, if_neg hxid, add_zero]
      exact hInv.poolCons x hx
  · intro q hq
    rcases List.mem_map.1 hq with ⟨x, hx, rfl⟩
    by_cases hxid : x.id = p.id
    · rw [if_pos hxid]
      have hne2 : (grabUpdate p uid g).status ≠ "refunded" := by
        show (if p.remaining_count - 1 = 0 then "finished" else p.status) ≠ "refunded"
        split
        · decide
        · rw [hact]; decide
      show refundSum (s.transactions ++ [⟨uid, g, "grab", "P:" ++ p.id⟩])
        (grabUpdate p uid g).id =
        (if (grabUpdate p uid g).status = "refunded"
         then (grabUpdate p uid g).remaining_amount else 0)
      rw [if_neg hne2, refundSum_append_grabtx]
      have hold := hInv.refundCons p hpmem
      have hne3 : p.status ≠ "refunded" := by rw [hact]; decide
      rw [if_neg hne3] at hold
      exact hold
    · rw [if_neg hxid]
      show refundSum (s.transactions ++ [⟨uid, g, "grab", "P:" ++ p.id⟩]) x.id =
        (if x.status = "refunded" then x.remaining_amount else 0)
      rw [refundSum_append_grabtx]
      exact hInv.refundCons x hx
  · intro pid' hpid'
    have hpidset : ∀ q ∈ s.packets, q.id ≠ pid' := by
      intro q hq
      have himg : (if q.id = p.id then grabUpdate p uid g else q) ∈
          setPacket s.packets p.id (grabUpdate p uid g) :=
        List.mem_map.2 ⟨q, hq, rfl⟩
      have himg2 := hpid' _ himg
      by_cases hq2 : q.id = p.id
      · rw [if_pos hq2] at himg2
        rw [hq2]
        exact himg2
      · rw [if_neg hq2] at himg2
        exact himg2
    have hold := hInv.freshPools pid' hpidset
    have hne : pid' ≠ p.id := fun h => (hpidset p hpmem) h.symm
    constructor
    · show claimedSum (s.transactions ++ [⟨uid, g, "grab", "P:" ++ p.id⟩]) pid' = 0
      rw [claimedSum_append_grab, if_neg hne, add_zero]
      exact hold.1
    · show refundSum (s.transactions ++ [⟨uid, g, "grab", "P:" ++ p.id⟩]) pid' = 0
      rw [refundSum_append_grabtx]
      exact hold.2
  · intro q hq
    rcases List.mem_map.1 hq with ⟨x, hx, rfl⟩
    by_cases hxid : x.id = p.id
    · rw [if_pos hxid]
      exact bumpBal_isSome (bumpBal_isSome (hInv.senderExists p hpmem) uid 0) uid g
    · rw [if_neg hxid]
      exact bumpBal_isSome (bumpBal_isSome (hInv.senderExists x hx) uid 0) uid g
  · intro q hq
    rcases List.mem_map.1 hq with ⟨x, hx, rfl⟩
    by_cases hxid : x.id = p.id
    · rw [if_pos hxid]
      exact hrg
    · rw [if_neg hxid]
      exact hInv.remNonneg x hx

theorem inv_hazardApply (s1 : DBState) (hS1 : SysInv s1) (p : RedPacket)
    (uid : Nat) : SysInv (hazardApply s1 p uid) := by
  have h1 := sysInv_users_tx s1 hS1 uid (-(penaltyOf p.total_amount))
    "boom_penalty" ("中雷:" ++ p.id) (by decide) (by decide)
  have h2 := sysInv_users_tx _ h1 p.sender_id (penaltyOf p.total_amount)
    "boom_income" ("中雷赔付:" ++ p.id) (by decide) (by decide)
  have heq : s1.transactions ++
      [(⟨uid, -(penaltyOf p.total_amount), "boom_penalty", "中雷:" ++ p.id⟩ : Transaction),
       ⟨p.sender_id, penaltyOf p.total_amount, "boom_income", "中雷赔付:" ++ p.id⟩] =
      (s1.transactions ++
        [⟨uid, -(penaltyOf p.total_amount), "boom_penalty", "中雷:" ++ p.id⟩]) ++
      [⟨p.sender_id, penaltyOf p.total_amount, "boom_income", "中雷赔付:" ++ p.id⟩] := by
    simp
  unfold hazardApply
  rw [heq]
  exact h2

theorem inv_grab_packet (s : DBState) (hInv : SysInv s) (pid : String)
    (uid : Nat) (seed : Nat) : SysInv (grab_packet s pid uid seed) := by
  unfold grab_packet
  split
  · exact hInv
  · rename_i p hp
    have hpmem : p ∈ s.packets := List.mem_of_find?_eq_some hp
    split
    · exact hInv
    · rename_i hguard
      push_neg at hguard
      split
      · exact hInv
      · rename_i hclaimed
        split
        · exact sysInv_bump0 s hInv uid
        · rename_i hgate
          split
          · exact hInv
          · rename_i g hg
            have hrg := grabAmount_sub_nonneg hg
            split
            · split
              · exact hInv
              · exact inv_hazardApply _
                  (inv_grabApply s hInv p uid g hpmem hguard.1 hclaimed hrg) p uid
            · exact inv_grabApply s hInv p uid g hpmem hguard.1 hclaimed hrg

theorem refundMark_map_id (ps : List RedPacket) (p : RedPacket) :
    ((ps.map (fun x =>
        if x.id = p.id then { x with status := "refunded" } else x)).map
      RedPacket.id) = ps.map RedPacket.id := by
  rw [List.map_map]
  apply List.map_congr_left
  intro x _
  by_cases hx : x.id = p.id <;> simp [hx]

/-- The expiry refund of one still-active packet with a positive remainder
(credit plus status flip, one unit of work) preserves the invariant. -/
theorem inv_refund_credit_mark (s : DBState) (hInv : SysInv s) (p : RedPacket)
    (hpmem : p ∈ s.packets) (hact : p.status = "active") :
    SysInv (refundMark
      { s with users := bumpBal s.users p.sender_id p.remaining_amount,
               transactions := s.transactions ++
                 [⟨p.sender_id, p.remaining_amount, "refund", "红包过期:" ++ p.id⟩] }
      p) := by
  have hinj := List.inj_on_of_nodup_map hInv.pidsNodup
  refine ⟨?_, ?_, ?_, ?_, ?_, ?_, ?_, ?_, hInv.depositPos⟩
  · exact cons_credit hInv.cons p.sender_id p.remaining_amount "refund"
      ("红包过期:" ++ p.id)
  · show ((s.packets.map (fun x =>
        if x.id = p.id then { x with status := "refunded" } else x)).map
      RedPacket.id).Nodup
    rw [refundMark_map_id]
    exact hInv.pidsNodup
  · intro q hq
    rcases List.mem_map.1 hq with ⟨x, hx, rfl⟩
    by_cases hxid : x.id = p.id
    · rw [if_pos hxid]
      exact hInv.claimedNodup x hx
    · rw [if_neg hxid]
      exact hInv.claimedNodup x hx
  · intro q hq
    rcases List.mem_map.1 hq with ⟨x, hx, rfl⟩
    by_cases hxid : x.id = p.id
    · rw [if_pos hxid]
      show claimedSum (s.transactions ++
        [⟨p.sender_id, p.remaining_amount, "refund", "红包过期:" ++ p.id⟩]) x.id +
        x.remaining_amount = x.total_amount
      rw [claimedSum_append_refundtx]
      exact hInv.poolCons x hx
    · rw [if_neg hxid]
      show claimedSum (s.transactions ++
        [⟨p.sender_id, p.remaining_amount, "refund", "红包过期:" ++ p.id⟩]) x.id +
        x.remaining_amount = x.total_amount
      rw [claimedSum_append_refundtx]
      exact hInv.poolCons x hx
  · intro q hq
    rcases List.mem_map.1 hq with ⟨x, hx, rfl⟩
    by_cases hxid : x.id = p.id
    · have hxp : x = p := hinj hx hpmem hxid
      subst hxp
      rw [if_pos hxid]
      show refundSum (s.transactions ++
        [⟨x.sender_id, x.remaining_amount, "refund", "红包过期:" ++ x.id⟩]) x.id =
        (if ("refunded" : String) = "refunded" then x.remaining_amount else 0)
      rw [if_pos rfl, refundSum_append_refund, if_pos rfl]
      have hold := hInv.refundCons x hx
      have hne3 : x.status ≠ "refunded" := by rw [hact]; decide
      rw [if_neg hne3] at hold
      rw [hold, zero_add]
    · rw [if_neg hxid]
      show refundSum (s.transactions ++
        [⟨p.sender_id, p.remaining_amount, "refund", "红包过期:" ++ p.id⟩]) x.id =
        (if x.status = "refunded" then x.remaining_amount else 0)
      rw [refundSum_append_refund, if_neg hxid, add_zero]
      exact hInv.refundCons x hx
  · intro pid' hpid'
    have hpidset : ∀ q ∈ s.packets, q.id ≠ pid' := by
      intro q hq
      have himg : (if q.id = p.id then { q with status := "refunded" } else q) ∈
          s.packets.map (fun x =>
            if x.id = p.id then { x with status := "refunded" } else x) :=
        List.mem_map.2 ⟨q, hq, rfl⟩
      have himg2 := hpid' _ himg
      by_cases hq2 : q.id = p.id
      · rw [if_pos hq2] at himg2
        exact himg2
      · rw [if_neg hq2] at himg2
        exact himg2
    have hold := hInv.freshPools pid' hpidset
    have hne : pid' ≠ p.id := fun h => (hpidset p hpmem) h.symm
    constructor
    · show claimedSum (s.transactions ++
        [⟨p.sender_id, p.remaining_amount, "refund", "红包过期:" ++ p.id⟩]) pid' = 0
      rw [claimedSum_append_refundtx]
      exact hold.1
    · show refundSum (s.transactions ++
        [⟨p.sender_id, p.remaining_amount, "refund", "红包过期:" ++ p.id⟩]) pid' = 0
      rw [refundSum_append_refund, if_neg hne, add_zero]
      exact hold.2
  · intro q hq
    rcases List.mem_map.1 hq with ⟨x, hx, rfl⟩
    by_cases hxid : x.id = p.id
    · rw [if_pos hxid]
      exact bumpBal_isSome (hInv.senderExists x hx) p.sender_id p.remaining_amount
    · rw [if_neg hxid]
      exact bumpBal_isSome (hInv.senderExists x hx) p.sender_id p.remaining_amount
  · intro q hq
    rcases List.mem_map.1 hq with ⟨x, hx, rfl⟩
    by_cases hxid : x.id = p.id
    · rw [if_pos hxid]
      exact hInv.remNonneg x hx
    · rw [if_neg hxid]
      exact hInv.remNonneg x hx

/-- Flipping an exhausted (`remaining = 0`) active packet to refunded with
no credit preserves the invariant. -/
theorem inv_refundMark_only (s : DBState) (hInv : SysInv s) (p : RedPacket)
    (hpmem : p ∈ s.packets) (hact : p.status = "active")
    (hzero : p.remaining_amount = 0) : SysInv (refundMark s p) := by
  have hinj := List.inj_on_of_nodup_map hInv.pidsNodup
  refine ⟨hInv.cons, ?_, ?_, ?_, ?_, ?_, ?_, ?_, hInv.depositPos⟩
  · show ((s.packets.map (fun x =>
        if x.id = p.id then { x with status := "refunded" } else x)).map
      RedPacket.id).Nodup
    rw [refundMark_map_id]
    exact hInv.pidsNodup
  · intro q hq
    rcases List.mem_map.1 hq with ⟨x, hx, rfl⟩
    by_cases hxid : x.id = p.id
    · rw [if_pos hxid]; exact hInv.claimedNodup x hx
    · rw [if_neg hxid]; exact hInv.claimedNodup x hx
  · intro q hq
    rcases List.mem_map.1 hq with ⟨x, hx, rfl⟩
    by_cases hxid : x.id = p.id
    · rw [if_pos hxid]; exact hInv.poolCons x hx
    · rw [if_neg hxid]; exact hInv.poolCons x hx
  · intro q hq
    rcases List.mem_map.1 hq with ⟨x, hx, rfl⟩
    by_cases hxid : x.id = p.id
    · have hxp : x = p := hinj hx hpmem hxid
      subst hxp
      rw [if_pos hxid]
      show refundSum s.transactions x.id =
        (if ("refunded" : String) = "refunded" then x.remaining_amount else 0)
      rw [if_pos rfl, hzero]
      have hold := hInv.refundCons x hx
      have hne3 : x.status ≠ "refunded" := by rw [hact]; decide
      rw [if_neg hne3] at hold
      exact hold
    · rw [if_neg hxid]
      exact hInv.refundCons x hx
  · intro pid' hpid'
    refine hInv.freshPools pid' ?_
    intro q hq
    have himg : (if q.id = p.id then { q with status := "refunded" } else q) ∈
        s.packets.map (fun x =>
          if x.id = p.id then { x with status := "refunded" } else x) :=
      List.mem_map.2 ⟨q, hq, rfl⟩
    have himg2 := hpid' _ himg
    by_cases hq2 : q.id = p.id
    · rw [if_pos hq2] at himg2
      exact himg2
    · rw [if_neg hq2] at himg2
      exact himg2
  · intro q hq
    rcases List.mem_map.1 hq with ⟨x, hx, rfl⟩
    by_cases hxid : x.id = p.id
    · rw [if_pos hxid]; exact hInv.senderExists x hx
    · rw [if_neg hxid]; exact hInv.senderExists x hx
  · intro q hq
    rcases List.mem_map.1 hq with ⟨x, hx, rfl⟩
    by_cases hxid : x.id = p.id
    · rw [if_pos hxid]; exact hInv.remNonneg x hx
    · rw [if_neg hxid]; exact hInv.remNonneg x hx

theorem inv_refundStep (s : DBState) (hInv : SysInv s) (pid : String) :
    SysInv (refundStep s pid) := by
  unfold refundStep
  split
  · exact hInv
  · rename_i p hp
    have hpmem : p ∈ s.packets := List.mem_of_find?_eq_some hp
    split
    · exact hInv
    · rename_i hact
      rw [not_ne_iff] at hact
      split
      · split
        · rename_i hmatch
          exact absurd (hInv.senderExists p hpmem) (by rw [hmatch]; simp)
        · exact inv_refund_credit_mark s hInv p hpmem hact
      · rename_i hpos
        have h0 := hInv.remNonneg p hpmem
        exact inv_refundMark_only s hInv p hpmem hact (by omega)

theorem inv_auto_refund (s : DBState) (hInv : SysInv s) (limit : Nat) :
    SysInv (auto_refund_redpackets s limit) := by
  unfold auto_refund_redpackets
  have h : ∀ (ids : List String) (t : DBState), SysInv t →
      SysInv (ids.foldl refundStep t) := by
    intro ids
    induction ids with
    | nil => intro t ht; exact ht
    | cons a as ih => intro t ht; exact ih _ (inv_refundStep t ht a)
  exact h _ s hInv

theorem inv_process_packet_mine (s : DBState) (hInv : SysInv s) (uid : Nat)
    (pid : String) (amount : Int) (count : Nat) (mine : Int) (now : Nat) :
    SysInv (process_packet_mine s uid pid amount count mine now) := by
  unfold process_packet_mine
  split
  · exact hInv
  · rename_i hok
    push_neg at hok
    split
    · rename_i s' heq
      have hS := sysInv_add_balance s hInv uid (-amount) "send_packet"
        ("雷" ++ toString mine) (by decide) (by decide)
      rw [heq] at hS
      exact hS
    · rename_i s' heq
      have hS := sysInv_add_balance s hInv uid (-amount) "send_packet"
        ("雷" ++ toString mine) (by decide) (by decide)
      rw [heq] at hS
      split
      · exact hS
      · rename_i hdup
        have hfresh : ∀ q ∈ s'.packets, q.id ≠ pid := by
          intro q hq contra
          apply hdup
          refine List.any_eq_true.2 ⟨q, hq, ?_⟩
          simp [contra]
        have hr0 : (0 : Int) ≤ packetTotal amount := by
          have h1 : (0 : Int) ≤ amount := by
            have := hok.1
            omega
          exact Int.ediv_nonneg (by positivity) (by norm_num)
        have hsome : (s'.users uid).isSome := by
          have h2 := add_balance_users_isSome s uid (-amount) "send_packet"
            ("雷" ++ toString mine)
          rw [heq] at h2
          exact h2
        exact sysInv_packet_append s' hS
          ⟨pid, uid, packetTotal amount, count, packetTotal amount, count,
           "active", [], mine, now⟩ hfresh rfl rfl rfl hr0 hsome

theorem inv_applyOp (s : DBState) (hInv : SysInv s) (op : Op) :
    SysInv (applyOp s op) := by
  cases op with
  | start uid => exact inv_cmd_start s hInv uid
  | depositOrder uid v off now =>
      exact inv_process_deposit_amount s hInv uid v off now
  | adminDeposit oid a => exact inv_handle_deposit s hInv oid a
  | monitorDeposit tx amt => exact inv_process_deposit s hInv tx amt
  | chainTx tx toA wA v => exact inv_process_chain_tx s hInv tx toA wA v
  | chainTxCrash tx toA wA v =>
      exact inv_process_chain_tx_crash s hInv tx toA wA v
  | withdrawReq uid amt addr =>
      exact inv_create_withdrawal_request s hInv uid amt addr
  | adminWithdraw rid a => exact inv_handle_withdrawal s hInv rid a
  | sendPacket uid pid amt cnt mine now =>
      exact inv_process_packet_mine s hInv uid pid amt cnt mine now
  | grab pid uid seed => exact inv_grab_packet s hInv pid uid seed
  | refundSweep limit => exact inv_auto_refund s hInv limit
  | expireOrders limit => exact inv_auto_reject_expired_orders s hInv limit

theorem inv_runOps (ops : List Op) : SysInv (runOps ops) := by
  have h : ∀ (l : List Op) (t : DBState), SysInv t →
      SysInv (l.foldl applyOp t) := by
    intro l
    induction l with
    | nil => intro t ht; exact ht
    | cons a as ih => intro t ht; exact ih _ (inv_applyOp t ht a)
  exact h ops initState inv_init

/-! ## Settling the claims -/

theorem runOps_append_one (l : List Op) (a : Op) :
    runOps (l ++ [a]) = applyOp (runOps l) a := by
  unfold runOps
  rw [List.foldl_append]
  rfl

/-- Claim C1 (conservation): for every account, after any sequence of
operations (balance adjustments, payout-pool creates and claims, deposit
reconciliations, withdrawal requests and settlements, expiry refunds),
the sum of all Transaction amounts recorded for that account equals the
current balance of the account. -/
theorem c1_conservation (ops : List Op) (uid : Nat) :
    ((runOps ops).users uid).getD 0 = txSum (runOps ops).transactions uid :=
  (inv_runOps ops).cons uid

def opsC2pre : List Op :=
  [Op.start 1, Op.depositOrder 1 2 0 0, Op.monitorDeposit "t1" 2000100,
   Op.withdrawReq 1 1000000 "w"]

def opsC2 : List Op := opsC2pre ++ [Op.adminWithdraw 1 "approve"]

/-- Claim C2 evaluated at its failing input: a user holding 2,500,100 minor
units requests a 1,000,000 withdrawal (balance drops to 1,500,100 — the
freeze), and the admin approval then debits the SAME amount a second time
through add_balance, leaving 500,100 instead of 1,500,100.  Approving a
pending withdrawal is not balance-neutral in this code. -/
theorem c2_approve_debits_again :
    ((runOps opsC2pre).users 1).getD 0 = 1500100 ∧
    (runOps opsC2pre).withdrawals = [⟨1, 1, 1000000, "w", "pending"⟩] ∧
    runOps opsC2 = handle_withdrawal (runOps opsC2pre) 1 "approve" ∧
    ((runOps opsC2).users 1).getD 0 = 500100 ∧
    (runOps opsC2).withdrawals = [⟨1, 1, 1000000, "w", "approved"⟩] :=
  ⟨by decide, by decide, runOps_append_one opsC2pre (Op.adminWithdraw 1 "approve"),
   by decide, by decide⟩

def opsC3 : List Op :=
  [Op.start 1, Op.start 2,
   Op.depositOrder 2 100 0 0, Op.monitorDeposit "t1" 100000100,
   Op.depositOrder 1 5 0 0, Op.monitorDeposit "t2" 5000100,
   Op.sendPacket 2 "p" 100000000 2 5 0,
   Op.grab "p" 1 499]

/-- Claim C3 counterexample: a reachable state (funded by deposits, a
100-USDT mine packet with trigger 5, and a claim drawing 500 whose
hundreds digit hits the trigger) in which the hazard penalty of
142,500,000 drives the balance of claimant 1 to -136,999,400 < 0. -/
theorem c3_counterexample :
    ((runOps opsC3).users 1).getD 0 = -136999400 ∧
    ¬(0 ≤ ((runOps opsC3).users 1).getD 0) :=
  ⟨by decide, by decide⟩

/-! ## Non-negativity of balances outside the hazard penalty -/

def NonNeg (s : DBState) : Prop := ∀ uid, 0 ≤ (s.users uid).getD 0

theorem nonNeg_bump {users : Nat → Option Int} (h : ∀ v, 0 ≤ (users v).getD 0)
    (uid : Nat) (δ : Int) (hδ : 0 ≤ (users uid).getD 0 + δ) :
    ∀ v, 0 ≤ ((bumpBal users uid δ) v).getD 0 := by
  intro v
  rw [bumpBal_apply]
  by_cases hv : v = uid
  · rw [if_pos hv]
    simpa using hδ
  · rw [if_neg hv]
    exact h v

theorem nonNeg_add_balance (s : DBState) (h : NonNeg s) (uid : Nat)
    (amt : Int) (ty nt : String) : NonNeg (add_balance s uid amt ty nt).2 := by
  unfold add_balance
  by_cases hc : amt < 0 ∧ (s.users uid).getD 0 + amt < 0
  · simp only [if_pos hc]
    intro v
    exact nonNeg_bump h uid 0 (by have := h uid; omega) v
  · simp only [if_neg hc]
    intro v
    refine nonNeg_bump h uid amt ?_ v
    rcases not_and_or.mp hc with h2 | h2
    · have := h uid; omega
    · omega

theorem grabAmount_nonneg {p : RedPacket} {seed : Nat} {g : Int}
    (hc : 0 < p.remaining_count) (hr : 0 ≤ p.remaining_amount)
    (h : grabAmount p seed = some g) : 0 ≤ g := by
  unfold grabAmount at h
  split at h
  · injection h with h
    omega
  · rename_i hc1
    split at h
    · exact Option.noConfusion h
    · rename_i hmd
      have hmd1 : (1 : Int) ≤ 2 * p.remaining_amount / (p.remaining_count : Int) := by
        unfold maxDraw at hmd
        omega
      have hcpos : (0 : Int) < (p.remaining_count : Int) := by omega
      have h2 := (Int.le_ediv_iff_mul_le hcpos).mp hmd1
      split at h <;> injection h with h
      · omega
      · have h0 : 0 ≤ (seed : Int) % maxDraw p :=
          Int.emod_nonneg _ (by unfold maxDraw; omega)
        omega

/-- The structural conditions under which `grab_packet` reaches its
hazard-penalty branch (the direct claimant debit of bot.py line 425). -/
def grabHitsMine (s : DBState) (pid : String) (uid : Nat) (seed : Nat) : Prop :=
  match findPacket s pid with
  | none => False
  | some p =>
    ¬(p.status ≠ "active" ∨ p.remaining_count ≤ 0) ∧
    uid ∉ p.claimed_users ∧
    ¬(0 ≤ p.mine_number ∧ (s.users uid).getD 0 < 5000000) ∧
    (match grabAmount p seed with
     | none => False
     | some g => 0 ≤ p.mine_number ∧ mineDigit g = p.mine_number)

def opHitsMine (s : DBState) : Op → Prop
  | Op.grab pid uid seed => grabHitsMine s pid uid seed
  | _ => False

theorem nonNeg_cmd_start (s : DBState) (h : NonNeg s) (uid : Nat) :
    NonNeg (cmd_start s uid) := by
  unfold cmd_start
  split
  · exact h
  · intro v
    exact nonNeg_bump h uid 500000 (by have := h uid; omega) v

theorem nonNeg_process_deposit_amount (s : DBState) (h : NonNeg s) (uid : Nat)
    (v0 : Int) (off now : Nat) :
    NonNeg (process_deposit_amount s uid v0 off now) := by
  unfold process_deposit_amount create_deposit_order
  split
  · exact h
  · exact h

theorem nonNeg_handle_deposit (s : DBState) (h : NonNeg s) (oid : Nat)
    (a : String) : NonNeg (handle_deposit s oid a) := by
  unfold handle_deposit
  split
  · exact h
  · rename_i d hd
    split
    · exact h
    · split
      · split
        · rename_i s' heq
          have hN := nonNeg_add_balance s h d.user_id d.random_amount
            "deposit_manual" ("Admin批准:Order:" ++ toString d.id)
          rw [heq] at hN
          exact hN
        · rename_i s' heq
          have hN := nonNeg_add_balance s h d.user_id d.random_amount
            "deposit_manual" ("Admin批准:Order:" ++ toString d.id)
          rw [heq] at hN
          exact hN
      · split
        · exact h
        · exact h

theorem nonNeg_process_deposit (s : DBState) (hSys : SysInv s) (h : NonNeg s)
    (tx : String) (amt : Int) : NonNeg (process_deposit s tx amt) := by
  unfold process_deposit
  split
  · exact h
  · split
    · exact h
    · rename_i d hfind
      have hdmem : d ∈ s.deposits :=
        List.mem_reverse.1 (List.mem_of_find?_eq_some hfind)
      have hpred := List.find?_some hfind
      simp only [decide_eq_true_eq] at hpred
      split
      · exact h
      · intro v
        refine nonNeg_bump h d.user_id amt ?_ v
        have h1 := h d.user_id
        have h2 := (hSys.depositPos d hdmem).2
        have h3 : d.random_amount = amt := hpred.1
        omega

theorem nonNeg_process_chain_tx (s : DBState) (h : NonNeg s)
    (tx toA wA : String) (v : Int) :
    NonNeg (process_chain_tx s tx toA wA v) := by
  unfold process_chain_tx
  split
  · exact h
  · split
    · exact h
    · rename_i d hd
      exact nonNeg_add_balance s h d.user_id d.amount "deposit"
        ("充值:" ++ tx.take 6)

theorem nonNeg_process_chain_tx_crash (s : DBState) (h : NonNeg s)
    (tx toA wA : String) (v : Int) :
    NonNeg (process_chain_tx_crash s tx toA wA v) := by
  unfold process_chain_tx_crash
  split
  · exact h
  · split
    · exact h
    · rename_i d hd
      exact nonNeg_add_balance s h d.user_id d.amount "deposit"
        ("充值:" ++ tx.take 6)

theorem nonNeg_create_withdrawal (s : DBState) (h : NonNeg s) (uid : Nat)
    (amt : Int) (addr : String) :
    NonNeg (create_withdrawal_request s uid amt addr).2 := by
  unfold create_withdrawal_request
  split
  · exact h
  · rename_i bal hu
    split
    · exact h
    · rename_i hge
      intro v
      refine nonNeg_bump h uid (-amt) ?_ v
      rw [hu]
      simp only [Option.getD_some]
      omega

theorem nonNeg_handle_withdrawal (s : DBState) (h : NonNeg s) (rid : Nat)
    (a : String) : NonNeg (handle_withdrawal s rid a) := by
  unfold handle_withdrawal
  split
  · exact h
  · rename_i w hw
    split
    · exact h
    · split
      · split
        · rename_i s' heq
          have hN := nonNeg_add_balance s h w.user_id (-w.amount)
            "withdraw_approved" ("提现ID:" ++ toString w.id)
          rw [heq] at hN
          exact hN
        · rename_i s' heq
          have hN := nonNeg_add_balance s h w.user_id (-w.amount)
            "withdraw_approved" ("提现ID:" ++ toString w.id)
          rw [heq] at hN
          exact hN
      · split
        · exact h
        · exact h

theorem nonNeg_process_packet_mine (s : DBState) (h : NonNeg s) (uid : Nat)
    (pid : String) (amount : Int) (count : Nat) (mine : Int) (now : Nat) :
    NonNeg (process_packet_mine s uid pid amount count mine now) := by
  unfold process_packet_mine
  split
  · exact h
  · split
    · rename_i s' heq
      have hN := nonNeg_add_balance s h uid (-amount) "send_packet"
        ("雷" ++ toString mine)
      rw [heq] at hN
      exact hN
    · rename_i s' heq
      have hN := nonNeg_add_balance s h uid (-amount) "send_packet"
        ("雷" ++ toString mine)
      rw [heq] at hN
      split
      · exact hN
      · exact hN

theorem nonNeg_grab_packet (s : DBState) (hSys : SysInv s) (h : NonNeg s)
    (pid : String) (uid seed : Nat) (hno : ¬ grabHitsMine s pid uid seed) :
    NonNeg (grab_packet s pid uid seed) := by
  unfold grab_packet
  split
  · exact h
  · rename_i p hp
    have hpmem := List.mem_of_find?_eq_some hp
    split
    · exact h
    · rename_i hguard
      split
      · exact h
      · rename_i hclaimed
        split
        · intro v
          exact nonNeg_bump h uid 0 (by have := h uid; omega) v
        · rename_i hgate
          split
          · exact h
          · rename_i g hg
            have hcount : 0 < p.remaining_count := by
              rcases not_or.mp hguard with ⟨_, h2⟩
              omega
            have hgpos : 0 ≤ g :=
              grabAmount_nonneg hcount (hSys.remNonneg p hpmem) hg
            have hNN1 : NonNeg (grabApply s p uid g) := by
              intro v
              have h1 : ∀ w, 0 ≤ ((bumpBal s.users uid 0) w).getD 0 :=
                nonNeg_bump h uid 0 (by have := h uid; omega)
              refine nonNeg_bump h1 uid g ?_ v
              have h2 := h1 uid
              omega
            split
            · rename_i hHaz
              refine absurd ?_ hno
              unfold grabHitsMine
              rw [hp]
              exact ⟨hguard, hclaimed, hgate, by rw [hg]; exact hHaz⟩
            · exact hNN1

theorem nonNeg_refundStep (s : DBState) (hSys : SysInv s) (h : NonNeg s)
    (pid : String) : NonNeg (refundStep s pid) := by
  unfold refundStep
  split
  · exact h
  · rename_i p hp
    have hpmem := List.mem_of_find?_eq_some hp
    split
    · exact h
    · split
      · split
        · exact h
        · intro v
          refine nonNeg_bump h p.sender_id p.remaining_amount ?_ v
          have h1 := h p.sender_id
          have h2 := hSys.remNonneg p hpmem
          omega
      · exact h

theorem nonNeg_auto_refund (s : DBState) (hSys : SysInv s) (h : NonNeg s)
    (limit : Nat) : NonNeg (auto_refund_redpackets s limit) := by
  unfold auto_refund_redpackets
  have hgen : ∀ (ids : List String) (t : DBState), SysInv t → NonNeg t →
      NonNeg (ids.foldl refundStep t) := by
    intro ids
    induction ids with
    | nil => intro t _ ht; exact ht
    | cons a as ih =>
        intro t hSt ht
        exact ih _ (inv_refundStep t hSt a) (nonNeg_refundStep t hSt ht a)
  exact hgen _ s hSys h

theorem nonNeg_auto_reject (s : DBState) (h : NonNeg s) (limit : Nat) :
    NonNeg (auto_reject_expired_orders s limit) := by
  unfold auto_reject_expired_orders
  exact h

/-- Claim C3 (amended): every operation of the system leaves every balance
non-negative EXCEPT a payout claim in which the hazard penalty is
applied: the penalty is a direct balance write that skips the
Balance-Mutator check and can drive the claimant negative (see the
counterexample). -/
theorem c3_nonneg_amended (s : DBState) (op : Op) (hSys : SysInv s)
    (h : NonNeg s) (hno : ¬ opHitsMine s op) : NonNeg (applyOp s op) := by
  cases op with
  | start uid => exact nonNeg_cmd_start s h uid
  | depositOrder uid v off now =>
      exact nonNeg_process_deposit_amount s h uid v off now
  | adminDeposit oid a => exact nonNeg_handle_deposit s h oid a
  | monitorDeposit tx amt => exact nonNeg_process_deposit s hSys h tx amt
  | chainTx tx toA wA v => exact nonNeg_process_chain_tx s h tx toA wA v
  | chainTxCrash tx toA wA v =>
      exact nonNeg_process_chain_tx_crash s h tx toA wA v
  | withdrawReq uid amt addr => exact nonNeg_create_withdrawal s h uid amt addr
  | adminWithdraw rid a => exact nonNeg_handle_withdrawal s h rid a
  | sendPacket uid pid amt cnt mine now =>
      exact nonNeg_process_packet_mine s h uid pid amt cnt mine now
  | grab pid uid seed => exact nonNeg_grab_packet s hSys h pid uid seed hno
  | refundSweep limit => exact nonNeg_auto_refund s hSys h limit
  | expireOrders limit => exact nonNeg_auto_reject s h limit

/-- Witness for the amended C3 at a concrete input. -/
theorem c3_nonneg_amended_witness : NonNeg (applyOp initState (Op.start 1)) :=
  c3_nonneg_amended initState (Op.start 1) inv_init
    (fun uid => by simp [initState]) (fun hfalse => hfalse)

theorem bumpBal_getD_self (users : Nat → Option Int) (uid : Nat) (δ : Int) :
    ((bumpBal users uid δ) uid).getD 0 = (users uid).getD 0 + δ := by
  simp [bumpBal]

theorem bumpBal_other (users : Nat → Option Int) {v uid : Nat} (h : v ≠ uid)
    (δ : Int) : (bumpBal users uid δ) v = users v := by
  simp [bumpBal, h]

/-- Claim C4 counterexample: in the reachable state of `opsC3` the penalty
debit is NOT routed through the refusing Balance Mutator: the
boom_penalty ledger row of -142,500,000 is written although the claimant
only held 5,500,600 after the claim credit, and the balance ends
negative — contradicting the claim that a refused penalty debit leaves
the claimant non-negative. -/
theorem c4_counterexample :
    ((runOps opsC3).transactions.filter
        (fun t => decide (t.type = "boom_penalty"))).map Transaction.amount =
      [-142500000] ∧
    ((runOps opsC3).users 1).getD 0 = -136999400 ∧
    ((runOps opsC3).users 1).getD 0 < 0 :=
  ⟨by decide, by decide, by decide⟩

/-- Claim C4 (amended): on a claim of a mine packet whose drawn amount has
the trigger digit, the claimant is debited `penaltyOf total_amount`
(`int(1.5 * total)`) by a direct balance write and the sender is credited
the identical amount — a zero-sum transfer recorded as two ledger rows
(`boom_penalty`, `boom_income`) after the `grab` row.  The debit is never
refused; insufficient funds simply leave the claimant negative. -/
theorem c4_hazard_amended (s : DBState) (pid : String) (uid seed : Nat)
    (p : RedPacket) (g : Int) (sb : Int)
    (hf : findPacket s pid = some p)
    (hst : p.status = "active") (hc : 0 < p.remaining_count)
    (hmem : uid ∉ p.claimed_users)
    (hbal : ¬(0 ≤ p.mine_number ∧ (s.users uid).getD 0 < 5000000))
    (hg : grabAmount p seed = some g)
    (hmine : 0 ≤ p.mine_number) (hd : mineDigit g = p.mine_number)
    (hs : s.users p.sender_id = some sb) (hne : p.sender_id ≠ uid) :
    ((grab_packet s pid uid seed).users uid).getD 0 =
      (s.users uid).getD 0 + g - penaltyOf p.total_amount ∧
    ((grab_packet s pid uid seed).users p.sender_id).getD 0 =
      sb + penaltyOf p.total_amount ∧
    (grab_packet s pid uid seed).transactions =
      s.transactions ++
        [⟨uid, g, "grab", "P:" ++ p.id⟩,
         ⟨uid, -(penaltyOf p.total_amount), "boom_penalty", "中雷:" ++ p.id⟩,
         ⟨p.sender_id, penaltyOf p.total_amount, "boom_income",
          "中雷赔付:" ++ p.id⟩] := by
  have hguard : ¬(p.status ≠ "active" ∨ p.remaining_count ≤ 0) := by
    push_neg
    exact ⟨hst, by omega⟩
  have hs2 : (grabApply s p uid g).users p.sender_id = some sb := by
    show (bumpBal (bumpBal s.users uid 0) uid g) p.sender_id = some sb
    rw [bumpBal_other _ hne, bumpBal_other _ hne]
    exact hs
  have hrun : grab_packet s pid uid seed =
      hazardApply (grabApply s p uid g) p uid := by
    simp only [grab_packet, hf]
    rw [if_neg hguard, if_neg hmem, if_neg hbal]
    simp only [hg]
    rw [if_pos ⟨hmine, hd⟩, hs2]
  rw [hrun]
  refine ⟨?_, ?_, ?_⟩
  · show ((bumpBal (bumpBal (bumpBal (bumpBal s.users uid 0) uid g) uid
        (-(penaltyOf p.total_amount))) p.sender_id
        (penaltyOf p.total_amount)) uid).getD 0 =
      (s.users uid).getD 0 + g - penaltyOf p.total_amount
    rw [bumpBal_other _ (Ne.symm hne), bumpBal_getD_self, bumpBal_getD_self,
        bumpBal_getD_self]
    omega
  · show ((bumpBal (bumpBal (bumpBal (bumpBal s.users uid 0) uid g) uid
        (-(penaltyOf p.total_amount))) p.sender_id
        (penaltyOf p.total_amount)) p.sender_id).getD 0 =
      sb + penaltyOf p.total_amount
    rw [bumpBal_getD_self, bumpBal_other _ hne, bumpBal_other _ hne,
        bumpBal_other _ hne, hs]
    simp
  · show (s.transactions ++ [⟨uid, g, "grab", "P:" ++ p.id⟩]) ++
        [⟨uid, -(penaltyOf p.total_amount), "boom_penalty", "中雷:" ++ p.id⟩,
         ⟨p.sender_id, penaltyOf p.total_amount, "boom_income",
          "中雷赔付:" ++ p.id⟩] =
      s.transactions ++
        [⟨uid, g, "grab", "P:" ++ p.id⟩,
         ⟨uid, -(penaltyOf p.total_amount), "boom_penalty", "中雷:" ++ p.id⟩,
         ⟨p.sender_id, penaltyOf p.total_amount, "boom_income",
          "中雷赔付:" ++ p.id⟩]
    simp

def sW4 : DBState :=
  { initState with
      users := fun v => if v = 7 then some 5000000
               else if v = 8 then some 0 else none,
      packets := [⟨"w", 8, 1000, 1, 500, 1, "active", [], 5, 0⟩] }

def pW4 : RedPacket := ⟨"w", 8, 1000, 1, 500, 1, "active", [], 5, 0⟩

/-- Witness for the amended C4 at a concrete input. -/
theorem c4_hazard_amended_witness :
    ((grab_packet sW4 "w" 7 0).users 7).getD 0 =
      (sW4.users 7).getD 0 + 500 - penaltyOf pW4.total_amount ∧
    ((grab_packet sW4 "w" 7 0).users pW4.sender_id).getD 0 =
      0 + penaltyOf pW4.total_amount ∧
    (grab_packet sW4 "w" 7 0).transactions =
      sW4.transactions ++
        [⟨7, 500, "grab", "P:" ++ pW4.id⟩,
         ⟨7, -(penaltyOf pW4.total_amount), "boom_penalty", "中雷:" ++ pW4.id⟩,
         ⟨pW4.sender_id, penaltyOf pW4.total_amount, "boom_income",
          "中雷赔付:" ++ pW4.id⟩] :=
  c4_hazard_amended sW4 "w" 7 0 pW4 500 0 (by decide) rfl (by decide)
    (by decide) (by decide) (by decide) (by decide) (by decide) (by decide)
    (by decide)

def sC5 : DBState :=
  { initState with
      users := fun v => if v = 1 then some 0 else none,
      packets := [⟨"q", 1, 95000, 2, 1, 2, "active", [], -1, 0⟩] }

/-- Claim C5 counterexample: on an active pool with remaining_amount 1 and
2 remaining slots the draw is `randint(1, 1) = 1`, the clamp fires, and
the successful claim pays 0 minor units — the slot is consumed, the
claimed set grows, the grab ledger row records amount 0, and the
claimant gains nothing, contradicting "every claimed amount is at
least 1" (such a state is reached from a fresh pool of total 95000 with
95001 slots by 94999 draws of 1). -/
theorem c5_counterexample :
    (grab_packet sC5 "q" 2 0).transactions = [⟨2, 0, "grab", "P:q"⟩] ∧
    (grab_packet sC5 "q" 2 0).packets.map RedPacket.remaining_count = [1] ∧
    (grab_packet sC5 "q" 2 0).packets.map RedPacket.claimed_users = [[2]] ∧
    ((grab_packet sC5 "q" 2 0).users 2).getD 0 = 0 :=
  ⟨by decide, by decide, by decide, by decide⟩

/-- Claim C5 (amended): the last slot receives the whole remainder; a
non-last slot receives `min(draw, remaining - 1)` for a draw in
`[1, floor(2 * remaining / count)]`, which lies in that interval and is
strictly below the remainder whenever `remaining ≥ 2` — but it is 0 when
the remainder has been driven down to 1, and when
`floor(2 * remaining / count) < 1` the draw itself is ill-defined and
the claim aborts with no state change. -/
theorem c5_split_amended (p : RedPacket) (seed : Nat) :
    (p.remaining_count = 1 → grabAmount p seed = some p.remaining_amount) ∧
    (p.remaining_count ≠ 1 → 1 ≤ maxDraw p → 2 ≤ p.remaining_amount →
      ∃ g, grabAmount p seed = some g ∧ 1 ≤ g ∧ g ≤ maxDraw p ∧
        g < p.remaining_amount) ∧
    (p.remaining_count ≠ 1 → maxDraw p < 1 → grabAmount p seed = none) := by
  refine ⟨?_, ?_, ?_⟩
  · intro h1
    unfold grabAmount
    rw [if_pos h1]
  · intro h1 h2 h3
    have hmod1 : 0 ≤ (seed : Int) % maxDraw p := Int.emod_nonneg _ (by omega)
    have hmod2 : (seed : Int) % maxDraw p < maxDraw p :=
      Int.emod_lt_of_pos _ (by omega)
    unfold grabAmount
    rw [if_neg h1, if_neg (by omega)]
    by_cases hcl : p.remaining_amount ≤ 1 + (seed : Int) % maxDraw p
    · rw [if_pos hcl]
      exact ⟨p.remaining_amount - 1, rfl, by omega, by omega, by omega⟩
    · rw [if_neg hcl]
      exact ⟨1 + (seed : Int) % maxDraw p, rfl, by omega, by omega, by omega⟩
  · intro h1 h2
    unfold grabAmount
    rw [if_neg h1, if_pos h2]

def pW5 : RedPacket := ⟨"x", 1, 95000, 3, 10, 2, "active", [], -1, 0⟩

/-- Witness for the amended C5 at a concrete input. -/
theorem c5_split_amended_witness :
    ∃ g, grabAmount pW5 7 = some g ∧ 1 ≤ g ∧ g ≤ maxDraw pW5 ∧
      g < pW5.remaining_amount :=
  (c5_split_amended pW5 7).2.1 (by decide) (by decide) (by decide)

theorem grab_packet_already_claimed (s : DBState) (pid : String)
    (uid seed : Nat)
    (h : ∃ p, findPacket s pid = some p ∧ uid ∈ p.claimed_users) :
    grab_packet s pid uid seed = s := by
  rcases h with ⟨p, hp, hmem⟩
  simp only [grab_packet, hp]
  by_cases hg : p.status ≠ "active" ∨ p.remaining_count ≤ 0
  · rw [if_pos hg]
  · rw [if_neg hg, if_pos hmem]

/-- Claim C6: for every reachable state, no account id appears twice in the
claimed set of any pool, the claimed amounts recorded in the ledger plus
the current remainder equal the distributable total, and for a swept
(refunded) pool the claimed amounts plus the refunded remainder equal
the distributable total; moreover a second claim by the same account is
refused and changes nothing. -/
theorem c6_claim_exclusivity :
    (∀ ops : List Op, ∀ p ∈ (runOps ops).packets,
        p.claimed_users.Nodup ∧
        claimedSum (runOps ops).transactions p.id + p.remaining_amount =
          p.total_amount ∧
        (p.status = "refunded" →
          claimedSum (runOps ops).transactions p.id +
            refundSum (runOps ops).transactions p.id = p.total_amount)) ∧
    (∀ (s : DBState) (pid : String) (uid seed : Nat),
        (∃ p, findPacket s pid = some p ∧ uid ∈ p.claimed_users) →
        grab_packet s pid uid seed = s) := by
  constructor
  · intro ops p hp
    have hI := inv_runOps ops
    refine ⟨hI.claimedNodup p hp, hI.poolCons p hp, ?_⟩
    intro href
    have h1 := hI.poolCons p hp
    have h2 := hI.refundCons p hp
    rw [if_pos href] at h2
    omega
  · intro s pid uid seed h
    exact grab_packet_already_claimed s pid uid seed h

def opsC6 : List Op := [Op.start 1, Op.sendPacket 1 "c6" 100000 2 (-1) 0]

def pC6 : RedPacket := ⟨"c6", 1, 95000, 2, 95000, 2, "active", [], -1, 0⟩

def sC6 : DBState :=
  { initState with
      users := fun v => if v = 1 then some 7 else none,
      packets := [⟨"d", 1, 95000, 2, 94000, 1, "active", [3], -1, 0⟩] }

/-- Witness for C6 at concrete inputs. -/
theorem c6_claim_exclusivity_witness :
    (pC6.claimed_users.Nodup ∧
     claimedSum (runOps opsC6).transactions pC6.id + pC6.remaining_amount =
       pC6.total_amount ∧
     (pC6.status = "refunded" →
       claimedSum (runOps opsC6).transactions pC6.id +
         refundSum (runOps opsC6).transactions pC6.id = pC6.total_amount)) ∧
    grab_packet sC6 "d" 3 0 = sC6 :=
  ⟨c6_claim_exclusivity.1 opsC6 pC6 (by decide),
   c6_claim_exclusivity.2 sC6 "d" 3 0
     ⟨⟨"d", 1, 95000, 2, 94000, 1, "active", [3], -1, 0⟩, by decide, by decide⟩⟩

theorem add_balance_deposits (s : DBState) (uid : Nat) (amt : Int)
    (ty nt : String) : ((add_balance s uid amt ty nt).2).deposits = s.deposits := by
  by_cases h : amt < 0 ∧ (s.users uid).getD 0 + amt < 0
  · rw [add_balance_false s uid amt ty nt h]
  · rw [add_balance_true s uid amt ty nt h]

theorem process_deposit_deposits_of_match (s : DBState) (tx : String)
    (amt : Int)
    (hdup : ¬(s.deposits.any fun d => decide (d.tx_hash = some tx)) = true)
    (d : Deposit)
    (hfind : s.deposits.reverse.find?
      (fun x => decide (x.random_amount = amt ∧ x.status = "pending")) = some d) :
    (process_deposit s tx amt).deposits = s.deposits.map
      (fun x => if x.id = d.id then { x with status := "completed",
                                             tx_hash := some tx } else x) := by
  unfold process_deposit
  rw [if_neg hdup]
  simp only [hfind]
  cases hu : s.users d.user_id <;> rfl

/-- Claim C7 (idempotent reconciliation): processing the same external
transfer record a second time is a no-op, in both reconcilers — once a
tx_reference is attached to any order (or nothing matched and nothing
changed), a replay leaves the state identical, so the matched deposit is
credited exactly once. -/
theorem c7_idempotent_reconciliation :
    (∀ (s : DBState) (tx : String) (amt : Int),
        process_deposit (process_deposit s tx amt) tx amt =
          process_deposit s tx amt) ∧
    (∀ (s : DBState) (tx toA wA : String) (v : Int),
        process_chain_tx (process_chain_tx s tx toA wA v) tx toA wA v =
          process_chain_tx s tx toA wA v) := by
  constructor
  · intro s tx amt
    have hstop : ∀ t : DBState,
        (t.deposits.any fun x => decide (x.tx_hash = some tx)) = true →
        process_deposit t tx amt = t := by
      intro t ht
      unfold process_deposit
      rw [if_pos ht]
    by_cases hdup : (s.deposits.any fun x => decide (x.tx_hash = some tx)) = true
    · rw [hstop s hdup]
      exact hstop s hdup
    · cases hfind : s.deposits.reverse.find?
          (fun x => decide (x.random_amount = amt ∧ x.status = "pending")) with
      | none =>
        have h1 : process_deposit s tx amt = s := by
          unfold process_deposit
          rw [if_neg hdup, hfind]
        rw [h1]
        exact h1
      | some d =>
        have hdmem : d ∈ s.deposits :=
          List.mem_reverse.1 (List.mem_of_find?_eq_some hfind)
        have hany : ((process_deposit s tx amt).deposits.any
            fun x => decide (x.tx_hash = some tx)) = true := by
          rw [process_deposit_deposits_of_match s tx amt hdup d hfind]
          refine List.any_eq_true.2 ⟨_, List.mem_map.2 ⟨d, hdmem, rfl⟩, ?_⟩
          rw [if_pos rfl]
          simp
        exact hstop _ hany
  · intro s tx toA wA v
    have hstop : ∀ t : DBState, chainTxMatch t tx v = none →
        process_chain_tx t tx toA wA v = t := by
      intro t ht
      unfold process_chain_tx
      by_cases ha : toA ≠ wA
      · rw [if_pos ha]
      · rw [if_neg ha, ht]
    by_cases haddr : toA ≠ wA
    · have h1 : process_chain_tx s tx toA wA v = s := by
        unfold process_chain_tx
        rw [if_pos haddr]
      rw [h1]
      exact h1
    · cases hmatch : chainTxMatch s tx v with
      | none =>
        have h1 : process_chain_tx s tx toA wA v = s := by
          unfold process_chain_tx
          rw [if_neg haddr, hmatch]
        rw [h1]
        exact h1
      | some d =>
        have hdmem : d ∈ s.deposits := by
          unfold chainTxMatch at hmatch
          split at hmatch
          · exact Option.noConfusion hmatch
          · exact List.mem_of_find?_eq_some hmatch
        have hdeps : (process_chain_tx s tx toA wA v).deposits =
            s.deposits.map (fun x => if x.id = d.id
              then { x with status := "success", tx_hash := some tx } else x) := by
          unfold process_chain_tx
          rw [if_neg haddr]
          simp only [hmatch]
          unfold chainTxMark chainTxCredit
          rw [add_balance_deposits]
        have hany : ((process_chain_tx s tx toA wA v).deposits.any
            fun x => decide (x.tx_hash = some tx)) = true := by
          rw [hdeps]
          refine List.any_eq_true.2 ⟨_, List.mem_map.2 ⟨d, hdmem, rfl⟩, ?_⟩
          rw [if_pos rfl]
          simp
        have hmatch2 : chainTxMatch (process_chain_tx s tx toA wA v) tx v =
            none := by
          unfold chainTxMatch
          rw [if_pos hany]
        exact hstop _ hmatch2

def opsC8 : List Op :=
  [Op.start 1, Op.depositOrder 1 10 0 0,
   Op.chainTxCrash "h8" "A" "A" 10000100]

/-- Claim C8 counterexample: a crash between the two commits of
process_chain_txs (the add_balance session commits the credit first, the
order update commits second) leaves a reachable durable state in which
the owner has been credited the order amount while the order is still
pending with no tx_reference attached — the next poll would match it
again. -/
theorem c8_counterexample :
    ((runOps opsC8).users 1).getD 0 = 10500000 ∧
    (runOps opsC8).deposits.map Deposit.status = ["pending"] ∧
    (runOps opsC8).deposits.map Deposit.tx_hash = [none] ∧
    (runOps opsC8).transactions.map Transaction.amount = [500000, 10000000] :=
  ⟨by decide, by decide, by decide, by decide⟩

/-- Claim C8 (amended): monitor.py process_deposit IS atomic — each call
either changes nothing or, for one matched pending order, marks it
completed with the tx_reference attached and (exactly when the owner row
exists) credits the owner and writes the ledger row, all in the same
step with no observable intermediate state; bot.py process_chain_txs, in
contrast, commits the credit in a separate transaction before the order
update (see the counterexample). -/
theorem c8_atomic_amended (s : DBState) (tx : String) (amt : Int) :
    process_deposit s tx amt = s ∨
    ∃ d, d ∈ s.deposits ∧ d.status = "pending" ∧ d.random_amount = amt ∧
      (∃ d', d' ∈ (process_deposit s tx amt).deposits ∧ d'.id = d.id ∧
        d'.status = "completed" ∧ d'.tx_hash = some tx) ∧
      ((s.users d.user_id).isSome →
        ((process_deposit s tx amt).users d.user_id).getD 0 =
          (s.users d.user_id).getD 0 + amt ∧
        (process_deposit s tx amt).transactions =
          s.transactions ++
            [⟨d.user_id, amt, "deposit_auto", "充值:" ++ toString d.id⟩]) ∧
      ((s.users d.user_id).isNone →
        (process_deposit s tx amt).users = s.users ∧
        (process_deposit s tx amt).transactions = s.transactions) := by
  by_cases hdup : (s.deposits.any fun x => decide (x.tx_hash = some tx)) = true
  · left
    unfold process_deposit
    rw [if_pos hdup]
  · cases hfind : s.deposits.reverse.find?
        (fun x => decide (x.random_amount = amt ∧ x.status = "pending")) with
    | none =>
      left
      unfold process_deposit
      rw [if_neg hdup, hfind]
    | some d =>
      right
      have hdmem : d ∈ s.deposits :=
        List.mem_reverse.1 (List.mem_of_find?_eq_some hfind)
      have hpred := List.find?_some hfind
      simp only [decide_eq_true_eq] at hpred
      refine ⟨d, hdmem, hpred.2, hpred.1, ?_, ?_, ?_⟩
      · rw [process_deposit_deposits_of_match s tx amt hdup d hfind]
        exact ⟨{ d with status := "completed", tx_hash := some tx },
          List.mem_map.2 ⟨d, hdmem, by rw [if_pos rfl]⟩, rfl, rfl, rfl⟩
      · intro hsome
        cases hu : s.users d.user_id with
        | none =>
          rw [hu] at hsome
          exact absurd hsome (by simp)
        | some b =>
          have hrun : process_deposit s tx amt = { s with
              deposits := s.deposits.map (fun x => if x.id = d.id
                then { x with status := "completed", tx_hash := some tx } else x),
              users := bumpBal s.users d.user_id amt,
              transactions := s.transactions ++
                [⟨d.user_id, amt, "deposit_auto", "充值:" ++ toString d.id⟩] } := by
            unfold process_deposit
            rw [if_neg hdup]
            simp only [hfind]
            rw [hu]
          rw [hrun]
          constructor
          · show ((bumpBal s.users d.user_id amt) d.user_id).getD 0 =
              (some b).getD 0 + amt
            rw [bumpBal_getD_self, hu]
          · rfl
      · intro hnone
        cases hu : s.users d.user_id with
        | some b =>
          rw [hu] at hnone
          exact absurd hnone (by simp)
        | none =>
          have hrun : process_deposit s tx amt = { s with
              deposits := s.deposits.map (fun x => if x.id = d.id
                then { x with status := "completed", tx_hash := some tx } else x) } := by
            unfold process_deposit
            rw [if_neg hdup]
            simp only [hfind]
            rw [hu]
          rw [hrun]
          exact ⟨rfl, rfl⟩

/-- Witness for the amended C8 at a concrete input. -/
theorem c8_atomic_amended_witness :
    process_deposit initState "t" 5 = initState ∨
    ∃ d, d ∈ initState.deposits ∧ d.status = "pending" ∧
      d.random_amount = 5 ∧
      (∃ d', d' ∈ (process_deposit initState "t" 5).deposits ∧ d'.id = d.id ∧
        d'.status = "completed" ∧ d'.tx_hash = some "t") ∧
      ((initState.users d.user_id).isSome →
        ((process_deposit initState "t" 5).users d.user_id).getD 0 =
          (initState.users d.user_id).getD 0 + 5 ∧
        (process_deposit initState "t" 5).transactions =
          initState.transactions ++
            [⟨d.user_id, 5, "deposit_auto", "充值:" ++ toString d.id⟩]) ∧
      ((initState.users d.user_id).isNone →
        (process_deposit initState "t" 5).users = initState.users ∧
        (process_deposit initState "t" 5).transactions =
          initState.transactions) :=
  c8_atomic_amended initState "t" 5

def opsC9 : List Op :=
  [Op.start 1, Op.depositOrder 1 10 0 0, Op.monitorDeposit "t9" 10000100]

/-- Claim C9 counterexample: a pending order with nominal 10,000,000 and
disambiguated 10,002,100-class amount (here 10,000,100) matched by the
monitor daemon is completed with the hash attached but the owner is
credited the PAID disambiguated amount 10,000,100, not the nominal
10,000,000. -/
theorem c9_counterexample :
    (runOps opsC9).transactions =
      [⟨1, 500000, "system_bonus", "新人体验金"⟩,
       ⟨1, 10000100, "deposit_auto", "充值:1"⟩] ∧
    ((runOps opsC9).users 1).getD 0 = 10500100 ∧
    (runOps opsC9).deposits.map Deposit.status = ["completed"] ∧
    (runOps opsC9).deposits.map Deposit.tx_hash = [some "t9"] ∧
    (10000100 : Int) ≠ 10000000 :=
  ⟨by decide, by decide, by decide, by decide, by decide⟩

/-- Claim C9 (amended): the two reconcilers disagree — the bot watcher
credits the order nominal `amount` through add_balance, while the
monitor daemon credits the paid (disambiguated) transfer amount
directly. -/
theorem c9_credit_amended :
    (∀ (s : DBState) (d : Deposit) (tx : String), 0 ≤ d.amount →
      ((chainTxCredit s d tx).users d.user_id).getD 0 =
        (s.users d.user_id).getD 0 + d.amount ∧
      (chainTxCredit s d tx).transactions =
        s.transactions ++
          [⟨d.user_id, d.amount, "deposit", "充值:" ++ tx.take 6⟩]) ∧
    (∀ (s : DBState) (tx : String) (amt : Int) (d : Deposit) (b : Int),
      ¬(s.deposits.any fun x => decide (x.tx_hash = some tx)) = true →
      s.deposits.reverse.find?
        (fun x => decide (x.random_amount = amt ∧ x.status = "pending")) =
          some d →
      s.users d.user_id = some b →
      (process_deposit s tx amt).users d.user_id = some (b + amt) ∧
      (process_deposit s tx amt).transactions =
        s.transactions ++
          [⟨d.user_id, amt, "deposit_auto", "充值:" ++ toString d.id⟩]) := by
  constructor
  · intro s d tx h
    have hc : ¬(d.amount < 0 ∧ (s.users d.user_id).getD 0 + d.amount < 0) := by
      intro hcc
      omega
    unfold chainTxCredit
    rw [add_balance_true s d.user_id d.amount "deposit"
      ("充值:" ++ tx.take 6) hc]
    constructor
    · show ((bumpBal s.users d.user_id d.amount) d.user_id).getD 0 =
        (s.users d.user_id).getD 0 + d.amount
      rw [bumpBal_getD_self]
    · rfl
  · intro s tx amt d b hdup hfind hu
    have hrun : process_deposit s tx amt = { s with
        deposits := s.deposits.map (fun x => if x.id = d.id
          then { x with status := "completed", tx_hash := some tx } else x),
        users := bumpBal s.users d.user_id amt,
        transactions := s.transactions ++
          [⟨d.user_id, amt, "deposit_auto", "充值:" ++ toString d.id⟩] } := by
      unfold process_deposit
      rw [if_neg hdup]
      simp only [hfind]
      rw [hu]
    rw [hrun]
    constructor
    · show (bumpBal s.users d.user_id amt) d.user_id = some (b + amt)
      rw [bumpBal_apply, if_pos rfl, hu]
      simp
    · rfl

def ddep : Deposit := ⟨1, 3, 10000000, 10000100, "pending", none, 0⟩

def sW9 : DBState :=
  { initState with
      users := fun v => if v = 3 then some 7 else none,
      deposits := [ddep] }

/-- Witness for the amended C9 at concrete inputs. -/
theorem c9_credit_amended_witness :
    (((chainTxCredit initState ddep "hash9").users ddep.user_id).getD 0 =
       (initState.users ddep.user_id).getD 0 + ddep.amount ∧
     (chainTxCredit initState ddep "hash9").transactions =
       initState.transactions ++
         [⟨ddep.user_id, ddep.amount, "deposit", "充值:" ++ "hash9".take 6⟩]) ∧
    ((process_deposit sW9 "t9" 10000100).users ddep.user_id =
       some (7 + 10000100) ∧
     (process_deposit sW9 "t9" 10000100).transactions =
       sW9.transactions ++
         [⟨ddep.user_id, 10000100, "deposit_auto", "充值:" ++ toString ddep.id⟩]) :=
  ⟨c9_credit_amended.1 initState ddep "hash9" (by decide),
   c9_credit_amended.2 sW9 "t9" 10000100 ddep 7 (by decide) (by decide)
     (by decide)⟩

/-- Claim C10: an account created through the /start entry point starts
with the 500,000 minor-unit signup bonus and a matching system_bonus
ledger row, whereas an account created lazily by add_balance or by a
payout claim starts at balance 0 — and 500,000 is not 0, so the two
creation paths differ. -/
theorem c10_creation_paths :
    (∀ (s : DBState) (uid : Nat), s.users uid = none →
      (cmd_start s uid).users uid = some 500000 ∧
      (cmd_start s uid).transactions =
        s.transactions ++ [⟨uid, 500000, "system_bonus", "新人体验金"⟩]) ∧
    (∀ (s : DBState) (uid : Nat) (ty nt : String), s.users uid = none →
      ((add_balance s uid 0 ty nt).2).users uid = some 0) ∧
    (∀ (s : DBState) (pid : String) (uid seed : Nat) (p : RedPacket),
      s.users uid = none → findPacket s pid = some p →
      p.status = "active" → 0 < p.remaining_count → uid ∉ p.claimed_users →
      0 ≤ p.mine_number →
      (grab_packet s pid uid seed).users uid = some 0) ∧
    (500000 : Int) ≠ 0 := by
  refine ⟨?_, ?_, ?_, by decide⟩
  · intro s uid hu
    simp only [cmd_start, hu]
    constructor
    · show (bumpBal s.users uid 500000) uid = some 500000
      rw [bumpBal_apply, if_pos rfl, hu]
      rfl
    · trivial
  · intro s uid ty nt hu
    have hc : ¬((0 : Int) < 0 ∧ (s.users uid).getD 0 + 0 < 0) := by
      intro h
      exact absurd h.1 (by decide)
    rw [add_balance_true s uid 0 ty nt hc]
    show (bumpBal s.users uid 0) uid = some 0
    rw [bumpBal_apply, if_pos rfl, hu]
    rfl
  · intro s pid uid seed p hu hf hst hc hcl hm
    simp only [grab_packet, hf]
    rw [if_neg (by push_neg; exact ⟨hst, by omega⟩), if_neg hcl,
        if_pos ⟨hm, by rw [hu]; decide⟩]
    show (bumpBal s.users uid 0) uid = some 0
    rw [bumpBal_apply, if_pos rfl, hu]
    rfl

def pW10 : RedPacket := ⟨"z", 5, 95000, 2, 95000, 2, "active", [], 3, 0⟩

def sW10 : DBState :=
  { initState with
      users := fun v => if v = 5 then some 0 else none,
      packets := [pW10] }

/-- Witness for C10 at concrete inputs. -/
theorem c10_creation_paths_witness :
    ((cmd_start initState 1).users 1 = some 500000 ∧
     (cmd_start initState 1).transactions =
       initState.transactions ++
         [⟨1, 500000, "system_bonus", "新人体验金"⟩]) ∧
    ((add_balance initState 2 0 "t" "n").2.users 2 = some 0 ∧
     (grab_packet sW10 "z" 9 0).users 9 = some 0) ∧
    (500000 : Int) ≠ 0 :=
  ⟨c10_creation_paths.1 initState 1 rfl,
   ⟨c10_creation_paths.2.1 initState 2 "t" "n" rfl,
    c10_creation_paths.2.2.1 sW10 "z" 9 0 pW10 rfl (by decide) rfl
      (by decide) (by decide) (by decide)⟩,
   c10_creation_paths.2.2.2⟩
